import Mathlib

/-!
# exporter-discovery: reconciler, range expansion and scan jobs

A shallow embedding of `internal/k8s/scrapeconfig.go` and
`internal/scanner/scanner.go`.

* Go strings are `String`, slices are `List`.
* A Go `map[string]V` is an association list with pairwise distinct keys
  (`GoMap V`).  The order in which `range` visits a map is not fixed by the
  language, so every function that ranges over a map takes a `MapOrder`:
  an arbitrary rearrangement of the entries.
* Byte arithmetic (`net.IP`) is done on `Nat` with an explicit `% 256`.
-/

namespace ExporterDiscovery

/-! ## Go maps -/

/-- A Go `map[string]V`: entries in some order, keys pairwise distinct. -/
abbrev GoMap (V : Type) := List (String × V)

namespace GoMap

/-- The lookup `v, found := m[k]`. -/
def get? {V : Type} : GoMap V → String → Option V
  | [], _ => none
  | (k', v) :: rest, k => if k' = k then some v else get? rest k

/-- The assignment `m[k] = v`: overwrite the entry for `k`, or add one. -/
def set {V : Type} : GoMap V → String → V → GoMap V
  | [], k, v => [(k, v)]
  | (k', v') :: rest, k, v => if k' = k then (k, v) :: rest else (k', v') :: set rest k v

/-- The keys of a map. -/
def keys {V : Type} (m : GoMap V) : List String := m.map Prod.fst

end GoMap

/-- One way a `for k, v := range m` statement may visit the entries of a map. -/
structure MapOrder where
  /-- The entries in the order in which they are visited. -/
  range : {V : Type} → GoMap V → GoMap V
  /-- Every entry is visited exactly once. -/
  range_perm : ∀ {V : Type} (m : GoMap V), (range m).Perm m

/-- Visit the entries in the order in which their keys were first assigned. -/
def MapOrder.insertion : MapOrder := ⟨fun m => m, fun _ => List.Perm.refl _⟩

/-- Visit the entries in the opposite order. -/
def MapOrder.reversed : MapOrder := ⟨fun m => m.reverse, fun m => List.reverse_perm m⟩

/-! ## `internal/k8s`: static configs and the merge -/

/-- The type `monitoringv1alpha1.StaticConfig`: scrape addresses and a label map. -/
structure StaticConfig where
  Targets : List String
  Labels : GoMap String
deriving DecidableEq, Repr

/-- The map key the merge uses for an entry: `string(config.Targets[0])`,
    present only when `len(config.Targets) > 0`. -/
def StaticConfig.key (config : StaticConfig) : Option String := config.Targets.head?

/-- The loop
    `for _, config := range configs { if len(config.Targets) > 0 { m[string(config.Targets[0])] = config } }`
    run on the map `m`. -/
def indexByFirstTarget (m : GoMap StaticConfig) (configs : List StaticConfig) : GoMap StaticConfig :=
  configs.foldl
    (fun m config =>
      match config.Targets with
      | [] => m
      | target :: _ => m.set target config)
    m

/-- The loop over `existingTargets` of `mergeStaticConfigs`: an entry whose key is not
    found in `newTargets` is assigned into `newTargets`. -/
def preserveMissing (newTargets : GoMap StaticConfig) (visited : GoMap StaticConfig) :
    GoMap StaticConfig :=
  visited.foldl
    (fun newTargets entry =>
      match newTargets.get? entry.1 with
      | some _ => newTargets
      | none => newTargets.set entry.1 entry.2)
    newTargets

/-- The method `(*Client).mergeStaticConfigs`.  The receiver is not used by the body; the counter
    `preserved` and the log line do not reach the result. -/
def mergeStaticConfigs (ord : MapOrder) (existing new : List StaticConfig) : List StaticConfig :=
  let newTargets := indexByFirstTarget [] new
  let existingTargets := indexByFirstTarget [] existing
  let newTargets := preserveMissing newTargets (ord.range existingTargets)
  (ord.range newTargets).map Prod.snd

/-! ## `internal/scanner`: targets, probe results and scan jobs -/

/-- The constant `scanner.ExporterExporterPort`. -/
def scanner.ExporterExporterPort : String := "9999"

/-- The constant `k8s.ExporterExporterPort`. -/
def k8s.ExporterExporterPort : String := "9999"

/-- The type `scanner.Target`. -/
structure Target where
  IP : String
  Hostname : String
  Subnet : String
  Module : String
deriving DecidableEq, Repr

/-- The function `strings.TrimRight(s, cutset)`: `s` without its trailing characters that occur in
    `cutset`. -/
def TrimRight (s cutset : String) : String :=
  ⟨(s.data.reverse.dropWhile (fun ch => cutset.data.contains ch)).reverse⟩

/-- The function `net.JoinHostPort(host, port)`: `host:port`, and `[host]:port` when `host` contains a
    colon. -/
def JoinHostPort (host port : String) : String :=
  if host.data.contains ':' then "[" ++ host ++ "]:" ++ port else host ++ ":" ++ port

/-- The method `(*Scanner).checkExporterExporter` after the HTTP exchange: `response` is the error of
    building or sending the request or of decoding the body, or the decoded JSON object
    `modules` (member name to raw member value).  The result lists the member names in the
    order in which `range modules` visits them. -/
def checkExporterExporter (ord : MapOrder) (response : Except String (GoMap String)) :
    Except String (List String) :=
  match response with
  | Except.error err => Except.error err
  | Except.ok modules => Except.ok ((ord.range modules).map Prod.fst)

/-- The job returned by `(*Scanner).createScanJob(ipStr, subnet, results)`, run once:
    `probe` is what `s.checkExporterExporter(ctx, ipStr)` returns and `lookup` what
    `net.DefaultResolver.LookupAddr(ctx, ipStr)` returns; the value is the list of targets
    sent on `results`, in the order sent. -/
def createScanJob (ipStr subnet : String) (probe : Except String (List String))
    (lookup : Except String (List String)) : List Target :=
  match probe with
  | Except.error _ => []
  | Except.ok modules =>
    match lookup with
    | Except.error _ => []
    | Except.ok [] => []
    | Except.ok (addr :: _) =>
      let hostname := TrimRight addr "."
      modules.map (fun module =>
        { IP := ipStr, Hostname := hostname, Subnet := subnet, Module := module })

/-! ## `internal/scanner`: addresses of a network -/

/-- The type `net.IP` and `net.IPMask`: a slice of bytes, each below 256. -/
abbrev IP := List Nat

/-- The number that the bytes of an address denote, most significant byte first. -/
def IP.toNat (ip : IP) : Nat := ip.foldl (fun acc b => acc * 256 + b) 0

/-- The call `ip.String()` for a 4-byte address: dotted decimal. -/
def IP.String (ip : IP) : String := ".".intercalate (ip.map toString)

/-- The loop of `inc` on the bytes taken from the last index down:
    `ip[j]++; if ip[j] > 0 { break }`. -/
def incFromLast : List Nat → List Nat
  | [] => []
  | b :: rest =>
    let b' := (b + 1) % 256
    if b' > 0 then b' :: rest else b' :: incFromLast rest

/-- The call `inc(ip)`: the bytes of `ip` after the call. -/
def inc (ip : IP) : IP := (incFromLast ip.reverse).reverse

/-- The loop of `net.CIDRMask` over `l` remaining bytes with `n` remaining one-bits. -/
def CIDRMaskBytes : Nat → Nat → List Nat
  | 0, _ => []
  | l + 1, n =>
    if n ≥ 8 then 0xff :: CIDRMaskBytes l (n - 8)
    else (0xff - (0xff >>> n)) :: CIDRMaskBytes l 0

/-- The function `net.CIDRMask(ones, bits)`; `none` is the nil mask. -/
def CIDRMask (ones bits : Nat) : Option (List Nat) :=
  if bits ≠ 32 ∧ bits ≠ 128 then none
  else if ones > bits then none
  else some (CIDRMaskBytes (bits / 8) ones)

/-- The call `ip.Mask(mask)` for an address and a mask kept in the same form (both 4 bytes or both
    16 bytes); `none` is the nil address returned on a length mismatch. -/
def IP.Mask (ip : IP) (mask : List Nat) : Option IP :=
  if ip.length ≠ mask.length then none else some (List.zipWith (fun b m => b &&& m) ip mask)

/-- The type `net.IPNet`. -/
structure IPNet where
  IP : IP
  Mask : List Nat
deriving DecidableEq, Repr

/-- The comparison loop of `(*IPNet).Contains`:
    `if nn[i]&m[i] != ip[i]&m[i] { return false }`. -/
def containsBytes : List Nat → List Nat → List Nat → Bool
  | nn₀ :: nn, m₀ :: m, ip₀ :: ip =>
    if nn₀ &&& m₀ ≠ ip₀ &&& m₀ then false else containsBytes nn m ip
  | _, _, _ => true

/-- The method `(*IPNet).Contains(ip)` for a network and an address kept in the same form. -/
def IPNet.Contains (n : IPNet) (ip : ExporterDiscovery.IP) : Bool :=
  if ip.length ≠ n.IP.length then false else containsBytes n.IP n.Mask ip

/-- The function `net.ParseCIDR` on the IPv4 text `a.b.c.d/ones`, given the numbers its decimal fields
    denote: the address, and the network with the masked address and the mask.  Addresses
    are kept in 4-byte form, the form `networkIP.Mask(ipnet.Mask)` and `Contains` work
    on.  `none` is the parse error. -/
def ParseCIDR (a b c d ones : Nat) : Option (IP × IPNet) :=
  if a < 256 ∧ b < 256 ∧ c < 256 ∧ d < 256 then
    match CIDRMask ones 32 with
    | none => none
    | some m =>
      match IP.Mask [a, b, c, d] m with
      | none => none
      | some nip => some ([a, b, c, d], { IP := nip, Mask := m })
  else none

/-- The address loop of `submitJobs`,
    `for ip := ...; ipnet.Contains(ip); inc(ip) { select { case <-ctx.Done(): return; default: }; jobs <- ... }`,
    from the address `ip` on.  `done i` tells whether the context is cancelled when
    iteration `i` polls it.  The value is the list of addresses for which a job was
    submitted; `none` means that the loop is still running after `fuel` iterations. -/
def addressLoop (ipnet : IPNet) (done : Nat → Bool) : Nat → Nat → IP → Option (List IP)
  | 0, _, _ => none
  | fuel + 1, i, ip =>
    if ipnet.Contains ip then
      if done i then some []
      else (addressLoop ipnet done fuel (i + 1) (inc ip)).map (fun rest => ip :: rest)
    else some []

/-- The body of the loop over `networks` in `submitJobs` for one network whose text is
    `a.b.c.d/ones`: skip it on a parse error, else run the address loop from
    `networkIP.Mask(ipnet.Mask)`. -/
def submitJobs (done : Nat → Bool) (fuel : Nat) (a b c d ones : Nat) : Option (List IP) :=
  match ParseCIDR a b c d ones with
  | none => some []
  | some (networkIP, ipnet) =>
    match networkIP.Mask ipnet.Mask with
    | none => some []
    | some ip => addressLoop ipnet done fuel 0 ip

/-! ## `internal/k8s`: building static configs and updating the store -/

/-- The method `(*Client).buildStaticConfigs`. -/
def buildStaticConfigs (moduleName : String) (targets : List Target) : List StaticConfig :=
  targets.foldl
    (fun staticConfigs target =>
      staticConfigs ++
        [{ Targets := [JoinHostPort target.IP k8s.ExporterExporterPort],
           Labels := [("host", target.Hostname),
                      ("module", moduleName),
                      ("__metrics_path__", "/proxy"),
                      ("__param_module", moduleName)] }])
    []

/-- The type `k8s.Module`. -/
structure Module where
  Name : String
  Interval : String
  Timeout : String
deriving DecidableEq, Repr

/-- The type `metav1.OwnerReference`, the fields `NewClient` sets. -/
structure OwnerReference where
  APIVersion : String
  Kind : String
  Name : String
  UID : String
deriving DecidableEq, Repr

/-- The type `k8s.Client` without its connection, which is passed separately; `ns` is the field
    `namespace`. -/
structure Client where
  ns : String
  podRef : Option OwnerReference
  Modules : List Module
deriving DecidableEq, Repr

/-- The type `monitoringv1alpha1.ScrapeConfig`, the fields this program reads or writes. -/
structure ScrapeConfig where
  Name : String
  OwnerReferences : List OwnerReference
  ScrapeInterval : Option String
  ScrapeTimeout : Option String
  StaticConfigs : List StaticConfig
deriving DecidableEq, Repr

/-- The method `(*Client).getModuleConfig`. -/
def getModuleConfig (c : Client) (name : String) : Option Module :=
  c.Modules.find? (fun m => m.Name = name)

/-- The method `(*Client).applyModuleConfig`: the object after the call. -/
def applyModuleConfig (c : Client) (sc : ScrapeConfig) (moduleName : String) : ScrapeConfig :=
  let sc :=
    match c.podRef with
    | some ref => { sc with OwnerReferences := [ref] }
    | none => sc
  match getModuleConfig c moduleName with
  | some module =>
    let sc := if module.Interval ≠ "" then { sc with ScrapeInterval := some module.Interval } else sc
    if module.Timeout ≠ "" then { sc with ScrapeTimeout := some module.Timeout } else sc
  | none => sc

/-- An error returned by the store: not-found, or anything else. -/
inductive APIError where
  | NotFound (msg : String)
  | Other (msg : String)
deriving DecidableEq, Repr

/-- The call `err.Error()`. -/
def APIError.Error : APIError → String
  | APIError.NotFound msg => msg
  | APIError.Other msg => msg

/-- The function `errors.IsNotFound(err)` on a non-nil error. -/
def IsNotFound : APIError → Bool
  | APIError.NotFound _ => true
  | APIError.Other _ => false

/-- The three requests of `c.client.ScrapeConfigs(c.namespace)` this program sends, against
    a store in state `σ`: each returns its answer and the state of the store after it. -/
structure ScrapeConfigInterface (σ : Type) where
  Get : σ → String → Except APIError ScrapeConfig × σ
  Create : σ → ScrapeConfig → Option APIError × σ
  Update : σ → ScrapeConfig → Option APIError × σ

/-- The method `(*Client).updateScrapeConfig`: the error returned (`none` is nil) and the state of the
    store afterwards. -/
def updateScrapeConfig {σ : Type} (c : Client) (api : ScrapeConfigInterface σ) (ord : MapOrder)
    (s : σ) (moduleName : String) (targets : List Target) : Option APIError × σ :=
  let scrapeConfigName := "exporter-discovery-" ++ moduleName
  let newStaticConfigs := buildStaticConfigs moduleName targets
  match api.Get s scrapeConfigName with
  | (Except.error err, s₁) =>
    if !IsNotFound err then (some err, s₁)
    else
      let sc : ScrapeConfig :=
        { Name := scrapeConfigName,
          OwnerReferences := [],
          ScrapeInterval := none,
          ScrapeTimeout := none,
          StaticConfigs := buildStaticConfigs moduleName targets }
      api.Create s₁ (applyModuleConfig c sc moduleName)
  | (Except.ok sc, s₁) =>
    let sc := { sc with StaticConfigs := mergeStaticConfigs ord sc.StaticConfigs newStaticConfigs }
    api.Update s₁ (applyModuleConfig c sc moduleName)

/-- The error built by `fmt.Errorf("failed to update scrapeconfig for module %s: %w", ...)`:
    its text and the error it wraps. -/
structure WrappedError where
  msg : String
  err : APIError
deriving DecidableEq, Repr

/-- The loop of `UpdateScrapeConfigs` over the entries of `targets` in the order visited. -/
def updateVisited {σ : Type} (c : Client) (api : ScrapeConfigInterface σ) (ord : MapOrder) :
    σ → List (String × List Target) → Option WrappedError × σ
  | s, [] => (none, s)
  | s, (moduleName, moduleTargets) :: rest =>
    match updateScrapeConfig c api ord s moduleName moduleTargets with
    | (some err, s₁) =>
      (some { msg := "failed to update scrapeconfig for module " ++ moduleName ++ ": " ++ err.Error,
              err := err }, s₁)
    | (none, s₁) => updateVisited c api ord s₁ rest

/-- The method `(*Client).UpdateScrapeConfigs`. -/
def UpdateScrapeConfigs {σ : Type} (c : Client) (api : ScrapeConfigInterface σ) (ord : MapOrder)
    (s : σ) (targets : GoMap (List Target)) : Option WrappedError × σ :=
  updateVisited c api ord s (ord.range targets)

/-! ## An in-memory store -/

/-- A request received by the store. -/
inductive Call where
  | Get (name : String)
  | Create (sc : ScrapeConfig)
  | Update (sc : ScrapeConfig)
deriving DecidableEq, Repr

/-- An in-memory store: the objects by name, the names for which every request fails with
    an error other than not-found, and the requests received so far, oldest first. -/
structure Server where
  objects : GoMap ScrapeConfig
  unavailable : List String
  calls : List Call
deriving DecidableEq, Repr

/-- The answers of the in-memory store. -/
def Server.api : ScrapeConfigInterface Server where
  Get := fun s name =>
    let s₁ := { s with calls := s.calls ++ [Call.Get name] }
    if name ∈ s.unavailable then (Except.error (APIError.Other "connection refused"), s₁)
    else
      match s.objects.get? name with
      | none => (Except.error (APIError.NotFound ("scrapeconfigs \"" ++ name ++ "\" not found")), s₁)
      | some sc => (Except.ok sc, s₁)
  Create := fun s sc =>
    let s₁ := { s with calls := s.calls ++ [Call.Create sc] }
    if sc.Name ∈ s.unavailable then (some (APIError.Other "connection refused"), s₁)
    else
      match s.objects.get? sc.Name with
      | some _ => (some (APIError.Other ("scrapeconfigs \"" ++ sc.Name ++ "\" already exists")), s₁)
      | none => (none, { s₁ with objects := s.objects.set sc.Name sc })
  Update := fun s sc =>
    let s₁ := { s with calls := s.calls ++ [Call.Update sc] }
    if sc.Name ∈ s.unavailable then (some (APIError.Other "connection refused"), s₁)
    else
      match s.objects.get? sc.Name with
      | none => (some (APIError.NotFound ("scrapeconfigs \"" ++ sc.Name ++ "\" not found")), s₁)
      | some _ => (none, { s₁ with objects := s.objects.set sc.Name sc })

/-! ## Lemmas on Go maps -/

namespace GoMap

theorem get?_set {V : Type} (m : GoMap V) (k k' : String) (v : V) :
    (m.set k v).get? k' = if k = k' then some v else m.get? k' := by
  induction m with
  | nil => simp [set, get?]
  | cons e rest ih =>
    obtain ⟨k₀, v₀⟩ := e
    by_cases h : k₀ = k
    · subst h
      by_cases h' : k₀ = k' <;> simp [set, get?, h']
    · by_cases h' : k₀ = k'
      · subst h'
        have hne : ¬ k = k₀ := fun e => h e.symm
        simp [set, get?, h, hne]
      · simp [set, get?, h, h', ih]

theorem keys_set {V : Type} (m : GoMap V) (k : String) (v : V) :
    ∀ k', k' ∈ (m.set k v).keys ↔ k' = k ∨ k' ∈ m.keys := by
  induction m with
  | nil => simp [set, keys]
  | cons e rest ih =>
    obtain ⟨k₀, v₀⟩ := e
    intro k'
    by_cases h : k₀ = k
    · subst h
      simp [set, keys]
    · have ih' := ih k'
      simp only [keys] at ih'
      simp only [set, h, if_false, keys, List.map_cons, List.mem_cons, ih']
      tauto

theorem nodup_keys_set {V : Type} (m : GoMap V) (k : String) (v : V)
    (h : m.keys.Nodup) : (m.set k v).keys.Nodup := by
  induction m with
  | nil => simp [set, keys]
  | cons e rest ih =>
    obtain ⟨k₀, v₀⟩ := e
    simp only [keys, List.map_cons, List.nodup_cons] at h
    by_cases hk : k₀ = k
    · subst hk
      simpa [set, keys] using h
    · have hmem := keys_set rest k v k₀
      simp only [set, hk, if_false, keys, List.map_cons, List.nodup_cons]
      refine ⟨?_, ih h.2⟩
      intro hin
      rcases (hmem.mp hin) with h1 | h1
      · exact hk h1
      · exact h.1 h1

theorem get?_eq_none_of_not_mem_keys {V : Type} (m : GoMap V) (k : String)
    (h : k ∉ m.keys) : m.get? k = none := by
  induction m with
  | nil => rfl
  | cons e rest ih =>
    obtain ⟨k₀, v₀⟩ := e
    simp only [keys, List.map_cons, List.mem_cons, not_or] at h
    have hne : ¬ k₀ = k := fun e => h.1 e.symm
    simp only [get?, hne, if_false]
    exact ih h.2

theorem mem_of_get?_eq_some {V : Type} (m : GoMap V) (k : String) (v : V)
    (h : m.get? k = some v) : (k, v) ∈ m := by
  induction m with
  | nil => simp [get?] at h
  | cons e rest ih =>
    obtain ⟨k₀, v₀⟩ := e
    by_cases hk : k₀ = k
    · subst hk
      simp only [get?, if_true, Option.some.injEq] at h
      subst h
      exact List.mem_cons_self _ _
    · simp only [get?, hk, if_false] at h
      exact List.mem_cons_of_mem _ (ih h)

theorem get?_eq_some_of_mem {V : Type} (m : GoMap V) (k : String) (v : V)
    (hnd : m.keys.Nodup) (h : (k, v) ∈ m) : m.get? k = some v := by
  induction m with
  | nil => simp at h
  | cons e rest ih =>
    obtain ⟨k₀, v₀⟩ := e
    simp only [keys, List.map_cons, List.nodup_cons] at hnd
    rcases List.mem_cons.mp h with h1 | h1
    · cases h1
      simp [get?]
    · have hk : ¬ k₀ = k := by
        intro e
        subst e
        exact hnd.1 (List.mem_map.mpr ⟨(k₀, v), h1, rfl⟩)
      simp only [get?, hk, if_false]
      exact ih hnd.2 h1

theorem get?_eq_some_iff {V : Type} (m : GoMap V) (hnd : m.keys.Nodup) (k : String) (v : V) :
    m.get? k = some v ↔ (k, v) ∈ m :=
  ⟨mem_of_get?_eq_some m k v, get?_eq_some_of_mem m k v hnd⟩

theorem nodup_of_nodup_keys {V : Type} (m : GoMap V) (hnd : m.keys.Nodup) : m.Nodup :=
  List.Nodup.of_map Prod.fst hnd

/-- Two maps that answer every lookup alike hold the same entries. -/
theorem perm_of_get?_eq {V : Type} (m₁ m₂ : GoMap V) (h₁ : m₁.keys.Nodup) (h₂ : m₂.keys.Nodup)
    (h : ∀ k, m₁.get? k = m₂.get? k) : m₁.Perm m₂ := by
  rw [List.perm_ext_iff_of_nodup (nodup_of_nodup_keys m₁ h₁) (nodup_of_nodup_keys m₂ h₂)]
  rintro ⟨k, v⟩
  rw [← get?_eq_some_iff m₁ h₁, ← get?_eq_some_iff m₂ h₂, h k]

/-- Visiting a map in another order does not change what a lookup finds. -/
theorem get?_of_perm {V : Type} (m₁ m₂ : GoMap V) (h₂ : m₂.keys.Nodup) (hp : m₁.Perm m₂)
    (k : String) : m₁.get? k = m₂.get? k := by
  have h₁ : m₁.keys.Nodup := ((hp.map Prod.fst).nodup_iff).mpr h₂
  apply Option.ext
  intro v
  rw [Option.mem_def, Option.mem_def, get?_eq_some_iff m₁ h₁, get?_eq_some_iff m₂ h₂]
  exact hp.mem_iff

theorem mem_set {V : Type} (m : GoMap V) (k : String) (v : V) (e : String × V)
    (h : e ∈ m.set k v) : e = (k, v) ∨ e ∈ m := by
  induction m with
  | nil => simpa [set] using h
  | cons e₀ rest ih =>
    obtain ⟨k₀, v₀⟩ := e₀
    by_cases hk : k₀ = k
    · simp only [set, hk, if_true, List.mem_cons] at h
      rcases h with h | h
      · exact Or.inl h
      · exact Or.inr (List.mem_cons_of_mem _ h)
    · simp only [set, hk, if_false, List.mem_cons] at h
      rcases h with h | h
      · exact Or.inr (h ▸ List.mem_cons_self _ _)
      · rcases ih h with h' | h'
        · exact Or.inl h'
        · exact Or.inr (List.mem_cons_of_mem _ h')

end GoMap

/-! ## Lemmas on the two indexing loops and the preserving loop -/

theorem indexByFirstTarget_nodup (m : GoMap StaticConfig) (l : List StaticConfig)
    (h : m.keys.Nodup) : (indexByFirstTarget m l).keys.Nodup := by
  induction l generalizing m with
  | nil => exact h
  | cons c rest ih =>
    simp only [indexByFirstTarget, List.foldl_cons]
    cases hT : c.Targets with
    | nil => exact ih m h
    | cons t ts => exact ih _ (GoMap.nodup_keys_set m t c h)

theorem indexByFirstTarget_keyed (m : GoMap StaticConfig) (l : List StaticConfig)
    (h : ∀ e ∈ m, e.2.key = some e.1) : ∀ e ∈ indexByFirstTarget m l, e.2.key = some e.1 := by
  induction l generalizing m with
  | nil => exact h
  | cons c rest ih =>
    simp only [indexByFirstTarget, List.foldl_cons]
    cases hT : c.Targets with
    | nil => exact ih m h
    | cons t ts =>
      apply ih
      intro e he
      rcases GoMap.mem_set m t c e he with h1 | h1
      · subst h1
        simp [StaticConfig.key, hT]
      · exact h e h1

theorem indexByFirstTarget_get?_of_absent (m : GoMap StaticConfig) (l : List StaticConfig)
    (k : String) (h : ∀ c ∈ l, c.key ≠ some k) :
    (indexByFirstTarget m l).get? k = m.get? k := by
  induction l generalizing m with
  | nil => rfl
  | cons c rest ih =>
    have hc := h c (List.mem_cons_self _ _)
    have hrest : ∀ d ∈ rest, d.key ≠ some k := fun d hd => h d (List.mem_cons_of_mem _ hd)
    simp only [indexByFirstTarget, List.foldl_cons]
    cases hT : c.Targets with
    | nil => exact ih m hrest
    | cons t ts =>
      have hne : ¬ t = k := by
        intro e
        apply hc
        simp [StaticConfig.key, hT, e]
      have := ih (m.set t c) hrest
      simp only [indexByFirstTarget] at this
      rw [this, GoMap.get?_set, if_neg hne]

theorem indexByFirstTarget_append (m : GoMap StaticConfig) (l₁ l₂ : List StaticConfig) :
    indexByFirstTarget m (l₁ ++ l₂) = indexByFirstTarget (indexByFirstTarget m l₁) l₂ := by
  simp [indexByFirstTarget, List.foldl_append]

/-- The map built by an indexing loop holds, for a key, the last entry that has it. -/
theorem indexByFirstTarget_get?_last (m : GoMap StaticConfig)
    (pre post : List StaticConfig) (c : StaticConfig) (k : String)
    (hc : c.key = some k) (hpost : ∀ d ∈ post, d.key ≠ some k) :
    (indexByFirstTarget m (pre ++ c :: post)).get? k = some c := by
  rw [indexByFirstTarget_append]
  cases hT : c.Targets with
  | nil => simp [StaticConfig.key, hT] at hc
  | cons t ts =>
    have ht : t = k := by simpa [StaticConfig.key, hT] using hc
    have hstep : indexByFirstTarget (indexByFirstTarget m pre) (c :: post)
        = indexByFirstTarget ((indexByFirstTarget m pre).set t c) post := by
      simp [indexByFirstTarget, List.foldl_cons, hT]
    rw [hstep, indexByFirstTarget_get?_of_absent _ _ _ hpost, GoMap.get?_set, if_pos ht]

theorem exists_last_with_key (l : List StaticConfig) (k : String)
    (h : ∃ c ∈ l, c.key = some k) :
    ∃ pre c post, l = pre ++ c :: post ∧ c.key = some k ∧ ∀ d ∈ post, d.key ≠ some k := by
  induction l with
  | nil => simp at h
  | cons a rest ih =>
    by_cases hr : ∃ c ∈ rest, c.key = some k
    · obtain ⟨pre, c, post, hl, hc, hp⟩ := ih hr
      exact ⟨a :: pre, c, post, by simp [hl], hc, hp⟩
    · obtain ⟨c, hcmem, hck⟩ := h
      rcases List.mem_cons.mp hcmem with h1 | h1
      · subst h1
        refine ⟨[], c, rest, rfl, hck, ?_⟩
        intro d hd hdk
        exact hr ⟨d, hd, hdk⟩
      · exact absurd ⟨c, h1, hck⟩ hr

theorem indexByFirstTarget_get?_mem (m : GoMap StaticConfig) (l : List StaticConfig)
    (k : String) (c : StaticConfig) (h : (indexByFirstTarget m l).get? k = some c) :
    m.get? k = some c ∨ (c ∈ l ∧ c.key = some k) := by
  by_cases hr : ∃ d ∈ l, d.key = some k
  · obtain ⟨pre, d, post, hl, hd, hp⟩ := exists_last_with_key l k hr
    rw [hl, indexByFirstTarget_get?_last m pre post d k hd hp] at h
    cases h
    exact Or.inr ⟨by simp [hl], hd⟩
  · have habs : ∀ d ∈ l, d.key ≠ some k := fun d hd hdk => hr ⟨d, hd, hdk⟩
    rw [indexByFirstTarget_get?_of_absent m l k habs] at h
    exact Or.inl h

theorem preserveMissing_get? (newTargets visited : GoMap StaticConfig) (k : String) :
    (preserveMissing newTargets visited).get? k
      = (newTargets.get? k).or (visited.get? k) := by
  induction visited generalizing newTargets with
  | nil => cases h : newTargets.get? k <;> simp [preserveMissing, GoMap.get?, h]
  | cons e rest ih =>
    obtain ⟨k₀, c₀⟩ := e
    simp only [preserveMissing, List.foldl_cons]
    cases hf : newTargets.get? k₀ with
    | some x =>
      have := ih newTargets
      simp only [preserveMissing] at this
      simp only [this, GoMap.get?]
      by_cases hk : k₀ = k
      · subst hk
        simp [hf]
      · simp [hk]
    | none =>
      have := ih (newTargets.set k₀ c₀)
      simp only [preserveMissing] at this
      simp only [this, GoMap.get?, GoMap.get?_set]
      by_cases hk : k₀ = k
      · subst hk
        simp [hf]
      · simp [hk]

theorem preserveMissing_nodup (newTargets visited : GoMap StaticConfig)
    (h : newTargets.keys.Nodup) : (preserveMissing newTargets visited).keys.Nodup := by
  induction visited generalizing newTargets with
  | nil => exact h
  | cons e rest ih =>
    simp only [preserveMissing, List.foldl_cons]
    cases hf : newTargets.get? e.1 with
    | some x => exact ih newTargets h
    | none => exact ih _ (GoMap.nodup_keys_set newTargets e.1 e.2 h)

theorem preserveMissing_keyed (newTargets visited : GoMap StaticConfig)
    (h : ∀ e ∈ newTargets, e.2.key = some e.1) (hv : ∀ e ∈ visited, e.2.key = some e.1) :
    ∀ e ∈ preserveMissing newTargets visited, e.2.key = some e.1 := by
  induction visited generalizing newTargets with
  | nil => exact h
  | cons e₀ rest ih =>
    have hrest : ∀ e ∈ rest, e.2.key = some e.1 := fun e he => hv e (List.mem_cons_of_mem _ he)
    simp only [preserveMissing, List.foldl_cons]
    cases hf : newTargets.get? e₀.1 with
    | some x => exact ih newTargets h hrest
    | none =>
      apply ih _ _ hrest
      intro e he
      rcases GoMap.mem_set newTargets e₀.1 e₀.2 e he with h1 | h1
      · subst h1
        exact hv e₀ (List.mem_cons_self _ _)
      · exact h e h1

/-- The entries of a keyed map whose value carries the key `k`: the one a lookup finds. -/
theorem filter_key_of_keyed (m : GoMap StaticConfig) (k : String)
    (hnd : m.keys.Nodup) (hk : ∀ e ∈ m, e.2.key = some e.1) :
    (m.map Prod.snd).filter (fun d => decide (d.key = some k)) = (m.get? k).toList := by
  induction m with
  | nil => rfl
  | cons e rest ih =>
    obtain ⟨k₀, c₀⟩ := e
    have hc₀ : c₀.key = some k₀ := hk (k₀, c₀) (List.mem_cons_self _ _)
    have hrest : ∀ e ∈ rest, e.2.key = some e.1 := fun e he => hk e (List.mem_cons_of_mem _ he)
    simp only [GoMap.keys, List.map_cons, List.nodup_cons] at hnd
    have ih' := ih hnd.2 hrest
    by_cases h : k₀ = k
    · subst h
      have hnone : GoMap.get? rest k₀ = none := GoMap.get?_eq_none_of_not_mem_keys rest k₀ hnd.1
      rw [hnone] at ih'
      simp [List.filter_cons, hc₀, GoMap.get?, ih']
    · have hne : ¬ c₀.key = some k := by
        rw [hc₀]
        intro e
        exact h (Option.some.inj e)
      simp [List.filter_cons, hne, GoMap.get?, h, ih']

/-- The map `newTargets` of `mergeStaticConfigs` after its third loop. -/
theorem merged_nodup (ord : MapOrder) (existing new : List StaticConfig) :
    (preserveMissing (indexByFirstTarget [] new)
      (ord.range (indexByFirstTarget [] existing))).keys.Nodup :=
  preserveMissing_nodup _ _ (indexByFirstTarget_nodup [] new List.nodup_nil)

theorem merged_keyed (ord : MapOrder) (existing new : List StaticConfig) :
    ∀ e ∈ preserveMissing (indexByFirstTarget [] new)
      (ord.range (indexByFirstTarget [] existing)), e.2.key = some e.1 := by
  apply preserveMissing_keyed
  · exact indexByFirstTarget_keyed [] new (by simp)
  · intro e he
    exact indexByFirstTarget_keyed [] existing (by simp) e ((ord.range_perm _).mem_iff.mp he)

theorem merged_get? (ord : MapOrder) (existing new : List StaticConfig) (k : String) :
    (preserveMissing (indexByFirstTarget [] new)
      (ord.range (indexByFirstTarget [] existing))).get? k
      = ((indexByFirstTarget [] new).get? k).or ((indexByFirstTarget [] existing).get? k) := by
  rw [preserveMissing_get?,
    GoMap.get?_of_perm _ _ (indexByFirstTarget_nodup [] existing List.nodup_nil)
      (ord.range_perm _) k]

/-- The result of the merge lists the values of the final map, in some order. -/
theorem mergeStaticConfigs_perm (ord : MapOrder) (existing new : List StaticConfig) :
    (mergeStaticConfigs ord existing new).Perm
      ((preserveMissing (indexByFirstTarget [] new)
        (ord.range (indexByFirstTarget [] existing))).map Prod.snd) :=
  (ord.range_perm _).map Prod.snd

/-- The entries of the merge result with key `k`. -/
theorem mergeStaticConfigs_filter (ord : MapOrder) (existing new : List StaticConfig)
    (k : String) :
    (mergeStaticConfigs ord existing new).filter (fun d => decide (d.key = some k))
      = (((indexByFirstTarget [] new).get? k).or
          ((indexByFirstTarget [] existing).get? k)).toList := by
  have hp := (mergeStaticConfigs_perm ord existing new).filter
    (fun d => decide (d.key = some k))
  rw [filter_key_of_keyed _ k (merged_nodup ord existing new) (merged_keyed ord existing new),
    merged_get?] at hp
  cases hv : ((indexByFirstTarget [] new).get? k).or ((indexByFirstTarget [] existing).get? k) with
  | none =>
    rw [hv] at hp
    simpa using hp
  | some c =>
    rw [hv] at hp
    simpa [List.perm_singleton] using hp

/-- Indexing the values of a keyed map gives back its lookups. -/
theorem indexByFirstTarget_of_values (m : GoMap StaticConfig) (l : List StaticConfig)
    (hnd : m.keys.Nodup) (hk : ∀ e ∈ m, e.2.key = some e.1) (hl : l.Perm (m.map Prod.snd))
    (k : String) : (indexByFirstTarget [] l).get? k = m.get? k := by
  have hmem : ∀ d ∈ l, d.key = some k → m.get? k = some d := by
    intro d hd hdk
    obtain ⟨e, he, hed⟩ := List.mem_map.mp (hl.mem_iff.mp hd)
    have h1 := hk e he
    rw [hed, hdk] at h1
    have h2 : e = (k, d) := by
      obtain ⟨k', d'⟩ := e
      simp only at hed h1
      rw [hed, ← Option.some.inj h1]
    rw [h2] at he
    exact GoMap.get?_eq_some_of_mem m k d hnd he
  by_cases hr : ∃ d ∈ l, d.key = some k
  · obtain ⟨pre, d, post, hdec, hd, hp⟩ := exists_last_with_key l k hr
    have hdl : d ∈ l := by simp [hdec]
    rw [hmem d hdl hd, hdec, indexByFirstTarget_get?_last [] pre post d k hd hp]
  · have habs : ∀ d ∈ l, d.key ≠ some k := fun d hd hdk => hr ⟨d, hd, hdk⟩
    rw [indexByFirstTarget_get?_of_absent [] l k habs]
    cases hm : m.get? k with
    | none => rfl
    | some c =>
      exfalso
      have hc := GoMap.mem_of_get?_eq_some m k c hm
      have hcl : c ∈ l := hl.mem_iff.mpr (List.mem_map.mpr ⟨(k, c), hc, rfl⟩)
      exact habs c hcl (hk (k, c) hc)

/-! ## The reconciler -/

/-- C1 (reconciler stability): for every order of map iteration, every `existing` and `new`
    and every key `k` (first target of an entry) that some entry of `existing` has and no
    entry of `new` has, the merge result holds exactly one entry with key `k`, and it is
    the entry `c` of `existing` for that key, unchanged in targets and labels (`c` is the
    last entry of `existing` with key `k`, the only one when the keys of `existing` are
    distinct). -/
theorem mergeStaticConfigs_stability (ord : MapOrder) (existing new : List StaticConfig)
    (k : String) (hex : ∃ c ∈ existing, c.key = some k) (hnew : ∀ c ∈ new, c.key ≠ some k) :
    ∃ pre c post, existing = pre ++ c :: post ∧ c.key = some k ∧
      (∀ d ∈ post, d.key ≠ some k) ∧
      (mergeStaticConfigs ord existing new).filter (fun d => decide (d.key = some k)) = [c] := by
  obtain ⟨pre, c, post, hl, hc, hp⟩ := exists_last_with_key existing k hex
  refine ⟨pre, c, post, hl, hc, hp, ?_⟩
  rw [mergeStaticConfigs_filter, indexByFirstTarget_get?_of_absent [] new k hnew, hl,
    indexByFirstTarget_get?_last [] pre post c k hc hp]
  rfl

/-- C1, at existing = {10.0.0.1, 10.0.0.2}, new = {10.0.0.1} and the key of 10.0.0.2. -/
theorem mergeStaticConfigs_stability_witness :
    (∃ c ∈ buildStaticConfigs "node"
        [⟨"10.0.0.1", "a", "10.0.0.0/30", "node"⟩, ⟨"10.0.0.2", "b", "10.0.0.0/30", "node"⟩],
        c.key = some "10.0.0.2:9999") ∧
    (∀ c ∈ buildStaticConfigs "node" [⟨"10.0.0.1", "a2", "10.0.0.0/30", "node"⟩],
        c.key ≠ some "10.0.0.2:9999") ∧
    ∃ pre c post,
      buildStaticConfigs "node"
        [⟨"10.0.0.1", "a", "10.0.0.0/30", "node"⟩, ⟨"10.0.0.2", "b", "10.0.0.0/30", "node"⟩]
        = pre ++ c :: post ∧ c.key = some "10.0.0.2:9999" ∧
      (∀ d ∈ post, d.key ≠ some "10.0.0.2:9999") ∧
      (mergeStaticConfigs MapOrder.reversed
        (buildStaticConfigs "node"
          [⟨"10.0.0.1", "a", "10.0.0.0/30", "node"⟩, ⟨"10.0.0.2", "b", "10.0.0.0/30", "node"⟩])
        (buildStaticConfigs "node" [⟨"10.0.0.1", "a2", "10.0.0.0/30", "node"⟩])).filter
          (fun d => decide (d.key = some "10.0.0.2:9999")) = [c] :=
  ⟨by decide, by decide,
    mergeStaticConfigs_stability MapOrder.reversed _ _ "10.0.0.2:9999" (by decide) (by decide)⟩

/-- C2 (reconciler freshness): for every order of map iteration, every `existing` and `new`
    and every key `k` that some entry of `new` has, the merge result holds exactly one entry
    with key `k`, and it is the entry `c` of `new` for that key (the last entry of `new`
    with key `k`), whatever `existing` holds for `k`. -/
theorem mergeStaticConfigs_freshness (ord : MapOrder) (existing new : List StaticConfig)
    (k : String) (hnew : ∃ c ∈ new, c.key = some k) :
    ∃ pre c post, new = pre ++ c :: post ∧ c.key = some k ∧
      (∀ d ∈ post, d.key ≠ some k) ∧
      (mergeStaticConfigs ord existing new).filter (fun d => decide (d.key = some k)) = [c] := by
  obtain ⟨pre, c, post, hl, hc, hp⟩ := exists_last_with_key new k hnew
  refine ⟨pre, c, post, hl, hc, hp, ?_⟩
  rw [mergeStaticConfigs_filter, hl, indexByFirstTarget_get?_last [] pre post c k hc hp]
  rfl

/-- C2, at existing = {10.0.0.1 (host "old")} and new = {10.0.0.1 (host "new")}. -/
theorem mergeStaticConfigs_freshness_witness :
    (∃ c ∈ buildStaticConfigs "node" [⟨"10.0.0.1", "new", "10.0.0.0/30", "node"⟩],
        c.key = some "10.0.0.1:9999") ∧
    ∃ pre c post,
      buildStaticConfigs "node" [⟨"10.0.0.1", "new", "10.0.0.0/30", "node"⟩]
        = pre ++ c :: post ∧ c.key = some "10.0.0.1:9999" ∧
      (∀ d ∈ post, d.key ≠ some "10.0.0.1:9999") ∧
      (mergeStaticConfigs MapOrder.insertion
        (buildStaticConfigs "node" [⟨"10.0.0.1", "old", "10.0.0.0/30", "node"⟩])
        (buildStaticConfigs "node" [⟨"10.0.0.1", "new", "10.0.0.0/30", "node"⟩])).filter
          (fun d => decide (d.key = some "10.0.0.1:9999")) = [c] :=
  ⟨by decide,
    mergeStaticConfigs_freshness MapOrder.insertion _ _ "10.0.0.1:9999" (by decide)⟩

/-- C3 (reconciler idempotence): for every `existing`, every scan list `S` and every order
    of map iteration in the first and in the second merge, merging `S` again into the
    result of merging `S` gives the same entries, up to their order. -/
theorem mergeStaticConfigs_idempotent (ord₁ ord₂ : MapOrder) (existing S : List StaticConfig) :
    (mergeStaticConfigs ord₂ (mergeStaticConfigs ord₁ existing S) S).Perm
      (mergeStaticConfigs ord₁ existing S) := by
  have hR := mergeStaticConfigs_perm ord₁ existing S
  refine ((mergeStaticConfigs_perm ord₂ _ S).trans ?_).trans hR.symm
  apply List.Perm.map
  apply GoMap.perm_of_get?_eq _ _ (merged_nodup ord₂ _ S) (merged_nodup ord₁ existing S)
  intro k
  rw [merged_get?, merged_get?,
    indexByFirstTarget_of_values _ _ (merged_nodup ord₁ existing S)
      (merged_keyed ord₁ existing S) hR k, merged_get?]
  cases (indexByFirstTarget [] S).get? k <;> rfl

/-- Every entry of the merge result has a target and comes from one of the two lists. -/
theorem mergeStaticConfigs_mem (ord : MapOrder) (existing new : List StaticConfig)
    (c : StaticConfig) (h : c ∈ mergeStaticConfigs ord existing new) :
    c.Targets ≠ [] ∧ (c ∈ new ∨ c ∈ existing) := by
  obtain ⟨e, he, hec⟩ := List.mem_map.mp ((mergeStaticConfigs_perm ord existing new).mem_iff.mp h)
  have hkey := merged_keyed ord existing new e he
  rw [hec] at hkey
  have hget := GoMap.get?_eq_some_of_mem _ e.1 e.2 (merged_nodup ord existing new) he
  rw [merged_get?, hec] at hget
  constructor
  · intro hT
    simp [StaticConfig.key, hT] at hkey
  · cases hn : (indexByFirstTarget [] new).get? e.1 with
    | some x =>
      rw [hn] at hget
      have hx : x = c := by simpa using hget
      rw [hx] at hn
      rcases indexByFirstTarget_get?_mem [] new e.1 c hn with h1 | h1
      · simp [GoMap.get?] at h1
      · exact Or.inl h1.1
    | none =>
      rw [hn] at hget
      have hx : (indexByFirstTarget [] existing).get? e.1 = some c := by simpa using hget
      rcases indexByFirstTarget_get?_mem [] existing e.1 c hx with h1 | h1
      · simp [GoMap.get?] at h1
      · exact Or.inr h1.1

/-- No two entries of the merge result have the same first target. -/
theorem mergeStaticConfigs_keys_nodup (ord : MapOrder) (existing new : List StaticConfig) :
    ((mergeStaticConfigs ord existing new).map StaticConfig.key).Nodup := by
  have hp := (mergeStaticConfigs_perm ord existing new).map StaticConfig.key
  rw [hp.nodup_iff, List.map_map]
  have hfun : List.map (StaticConfig.key ∘ Prod.snd)
      (preserveMissing (indexByFirstTarget [] new) (ord.range (indexByFirstTarget [] existing)))
      = List.map (some ∘ Prod.fst)
      (preserveMissing (indexByFirstTarget [] new) (ord.range (indexByFirstTarget [] existing))) := by
    apply List.map_congr_left
    intro e he
    exact merged_keyed ord existing new e he
  rw [hfun, ← List.map_map]
  exact (merged_nodup ord existing new).map (Option.some_injective _)

/-- C4, as amended (a scan without targets): for every order of map iteration and every
    `existing`, the merge of `existing` with the empty list (1) holds only entries of
    `existing` that have a target, (2) holds, for every key of `existing`, exactly the last
    entry of `existing` with that key, and (3) is `existing` itself up to order when every
    entry of `existing` has a target and no two entries share their first target. -/
theorem mergeStaticConfigs_empty_scan (ord : MapOrder) (existing : List StaticConfig) :
    (∀ c ∈ mergeStaticConfigs ord existing [], c ∈ existing ∧ c.Targets ≠ []) ∧
    (∀ k, (∃ c ∈ existing, c.key = some k) →
      ∃ pre c post, existing = pre ++ c :: post ∧ c.key = some k ∧
        (∀ d ∈ post, d.key ≠ some k) ∧
        (mergeStaticConfigs ord existing []).filter (fun d => decide (d.key = some k)) = [c]) ∧
    ((∀ c ∈ existing, c.Targets ≠ []) → (existing.map StaticConfig.key).Nodup →
      (mergeStaticConfigs ord existing []).Perm existing) := by
  have hlast : ∀ k, (∃ c ∈ existing, c.key = some k) →
      ∃ pre c post, existing = pre ++ c :: post ∧ c.key = some k ∧
        (∀ d ∈ post, d.key ≠ some k) ∧
        (mergeStaticConfigs ord existing []).filter (fun d => decide (d.key = some k)) = [c] := by
    intro k hex
    obtain ⟨pre, c, post, hl, hc, hp⟩ := exists_last_with_key existing k hex
    refine ⟨pre, c, post, hl, hc, hp, ?_⟩
    rw [mergeStaticConfigs_filter, hl, indexByFirstTarget_get?_last [] pre post c k hc hp]
    rfl
  refine ⟨?_, hlast, ?_⟩
  · intro c hc
    obtain ⟨hT, hmem⟩ := mergeStaticConfigs_mem ord existing [] c hc
    rcases hmem with h | h
    · simp at h
    · exact ⟨h, hT⟩
  · intro hT hnd
    rw [List.perm_ext_iff_of_nodup
      (List.Nodup.of_map StaticConfig.key (mergeStaticConfigs_keys_nodup ord existing []))
      (List.Nodup.of_map StaticConfig.key hnd)]
    intro c
    constructor
    · intro hc
      rcases (mergeStaticConfigs_mem ord existing [] c hc).2 with h | h
      · simp at h
      · exact h
    · intro hc
      cases hTc : c.Targets with
      | nil => exact absurd hTc (hT c hc)
      | cons t ts =>
        have hck : c.key = some t := by simp [StaticConfig.key, hTc]
        obtain ⟨pre, d, post, hl, hd, _, hf⟩ := hlast t ⟨c, hc, hck⟩
        have hdl : d ∈ existing := by simp [hl]
        have hdc : d = c := List.inj_on_of_nodup_map hnd hdl hc (hd.trans hck.symm)
        have : c ∈ (mergeStaticConfigs ord existing []).filter
            (fun d => decide (d.key = some t)) := by simp [hf, hdc]
        exact (List.mem_filter.mp this).1

/-- C4 as amended, at an existing set of two entries with distinct addresses. -/
theorem mergeStaticConfigs_empty_scan_witness :
    (∀ c ∈ buildStaticConfigs "node"
        [⟨"10.0.0.1", "a", "10.0.0.0/30", "node"⟩, ⟨"10.0.0.2", "b", "10.0.0.0/30", "node"⟩],
        c.Targets ≠ []) ∧
    ((buildStaticConfigs "node"
        [⟨"10.0.0.1", "a", "10.0.0.0/30", "node"⟩, ⟨"10.0.0.2", "b", "10.0.0.0/30", "node"⟩]).map
        StaticConfig.key).Nodup ∧
    (mergeStaticConfigs MapOrder.reversed
      (buildStaticConfigs "node"
        [⟨"10.0.0.1", "a", "10.0.0.0/30", "node"⟩, ⟨"10.0.0.2", "b", "10.0.0.0/30", "node"⟩])
      []).Perm
      (buildStaticConfigs "node"
        [⟨"10.0.0.1", "a", "10.0.0.0/30", "node"⟩, ⟨"10.0.0.2", "b", "10.0.0.0/30", "node"⟩]) :=
  ⟨by decide, by decide,
    (mergeStaticConfigs_empty_scan MapOrder.reversed _).2.2 (by decide) (by decide)⟩

/-- C4 as stated fails: merged with an empty scan, a non-empty existing list loses its entry
    without targets and the older of two entries that share an address. -/
theorem mergeStaticConfigs_empty_scan_drops :
    mergeStaticConfigs MapOrder.insertion
      [⟨[], [("host", "a")]⟩,
       ⟨["10.0.0.1:9999"], [("host", "old")]⟩,
       ⟨["10.0.0.1:9999"], [("host", "new")]⟩] []
      = [⟨["10.0.0.1:9999"], [("host", "new")]⟩] ∧
    (⟨[], [("host", "a")]⟩ : StaticConfig) ∉
      mergeStaticConfigs MapOrder.insertion
        [⟨[], [("host", "a")]⟩,
         ⟨["10.0.0.1:9999"], [("host", "old")]⟩,
         ⟨["10.0.0.1:9999"], [("host", "new")]⟩] [] ∧
    (⟨["10.0.0.1:9999"], [("host", "old")]⟩ : StaticConfig) ∉
      mergeStaticConfigs MapOrder.insertion
        [⟨[], [("host", "a")]⟩,
         ⟨["10.0.0.1:9999"], [("host", "old")]⟩,
         ⟨["10.0.0.1:9999"], [("host", "new")]⟩] [] := by
  decide

/-! ## Building static configs -/

theorem buildStaticConfigs_foldl (moduleName : String) (targets : List Target)
    (acc : List StaticConfig) :
    targets.foldl
      (fun staticConfigs target =>
        staticConfigs ++
          [{ Targets := [JoinHostPort target.IP k8s.ExporterExporterPort],
             Labels := [("host", target.Hostname),
                        ("module", moduleName),
                        ("__metrics_path__", "/proxy"),
                        ("__param_module", moduleName)] }])
      acc
    = acc ++ targets.map (fun target =>
        ({ Targets := [JoinHostPort target.IP k8s.ExporterExporterPort],
           Labels := [("host", target.Hostname),
                      ("module", moduleName),
                      ("__metrics_path__", "/proxy"),
                      ("__param_module", moduleName)] } : StaticConfig)) := by
  induction targets generalizing acc with
  | nil => simp
  | cons t rest ih => simp [List.foldl_cons, ih]

theorem buildStaticConfigs_eq_map (moduleName : String) (targets : List Target) :
    buildStaticConfigs moduleName targets
      = targets.map (fun target =>
        ({ Targets := [JoinHostPort target.IP k8s.ExporterExporterPort],
           Labels := [("host", target.Hostname),
                      ("module", moduleName),
                      ("__metrics_path__", "/proxy"),
                      ("__param_module", moduleName)] } : StaticConfig)) := by
  simp [buildStaticConfigs, buildStaticConfigs_foldl]

theorem JoinHostPort_of_colon (host port : String) (h : ':' ∈ host.data) :
    JoinHostPort host port = "[" ++ host ++ "]:" ++ port := by
  simp [JoinHostPort, h]

theorem JoinHostPort_of_no_colon (host port : String) (h : ':' ∉ host.data) :
    JoinHostPort host port = host ++ ":" ++ port := by
  simp [JoinHostPort, h]

set_option maxRecDepth 100000 in
theorem byte_text_no_colon : ∀ n, n < 256 → ':' ∉ (toString n).data := by
  decide

theorem intercalate_go_chars (P : Char → Prop) (sep : String) (hsep : ∀ ch ∈ sep.data, P ch)
    (l : List String) (hl : ∀ a ∈ l, ∀ ch ∈ a.data, P ch) :
    ∀ acc : String, (∀ ch ∈ acc.data, P ch) →
      ∀ ch ∈ (String.intercalate.go acc sep l).data, P ch := by
  induction l with
  | nil =>
    intro acc hacc
    simpa [String.intercalate.go] using hacc
  | cons a rest ih =>
    intro acc hacc
    simp only [String.intercalate.go]
    apply ih (fun b hb => hl b (List.mem_cons_of_mem _ hb))
    intro ch hch
    rw [String.data_append, String.data_append, List.mem_append, List.mem_append] at hch
    rcases hch with (h | h) | h
    · exact hacc ch h
    · exact hsep ch h
    · exact hl a (List.mem_cons_self _ _) ch h

/-- The dotted-decimal text of an address has no colon, so `JoinHostPort` does not bracket
    it. -/
theorem JoinHostPort_dotted (ip : IP) (hb : ∀ b ∈ ip, b < 256) (port : String) :
    JoinHostPort (IP.String ip) port = IP.String ip ++ ":" ++ port := by
  apply JoinHostPort_of_no_colon
  have hall : ∀ ch ∈ (IP.String ip).data, ch ≠ ':' := by
    unfold IP.String
    cases hip : ip.map toString with
    | nil => simp [String.intercalate]
    | cons a rest =>
      have hl : ∀ s ∈ a :: rest, ∀ ch ∈ s.data, ch ≠ ':' := by
        intro s hs ch hch e
        rw [← hip] at hs
        obtain ⟨n, hn, rfl⟩ := List.mem_map.mp hs
        exact byte_text_no_colon n (hb n hn) (e ▸ hch)
      simp only [String.intercalate]
      apply intercalate_go_chars (fun ch => ch ≠ ':') "." (by decide) rest
        (fun s hs => hl s (List.mem_cons_of_mem _ hs)) a (hl a (List.mem_cons_self _ _))
  intro h
  exact hall ':' h rfl

/-- C10, as amended (target endpoint encoding): for every module name and every list of
    targets, `buildStaticConfigs` returns one entry per target, in the same order; the
    entry of a target has exactly one scrape address, which is `<IP>:9999` when the IP has
    no colon and `[<IP>]:9999` when it has one, and the labels host = the hostname,
    module = the module name, __metrics_path__ = "/proxy" and __param_module = the module
    name; the port is the constant "9999" of both packages. -/
theorem buildStaticConfigs_encoding (moduleName : String) (targets : List Target) :
    buildStaticConfigs moduleName targets
      = targets.map (fun target =>
        ({ Targets := [if ':' ∈ target.IP.data then "[" ++ target.IP ++ "]:9999"
                       else target.IP ++ ":9999"],
           Labels := [("host", target.Hostname),
                      ("module", moduleName),
                      ("__metrics_path__", "/proxy"),
                      ("__param_module", moduleName)] } : StaticConfig)) ∧
    scanner.ExporterExporterPort = k8s.ExporterExporterPort ∧
    k8s.ExporterExporterPort = "9999" := by
  refine ⟨?_, rfl, rfl⟩
  rw [buildStaticConfigs_eq_map]
  apply List.map_congr_left
  intro t _
  by_cases h : ':' ∈ t.IP.data
  · have e : "]:" ++ k8s.ExporterExporterPort = "]:9999" := by decide
    rw [JoinHostPort_of_colon _ _ h, if_pos h, String.append_assoc, e]
  · have e : ":" ++ k8s.ExporterExporterPort = ":9999" := by decide
    rw [JoinHostPort_of_no_colon _ _ h, if_neg h, String.append_assoc, e]

/-- C10 as stated fails: for a target whose IP has a colon the scrape address is the
    bracketed form, not `<IP>:9999`. -/
theorem buildStaticConfigs_brackets_colon :
    buildStaticConfigs "node" [⟨"::1", "localhost", "::1/128", "node"⟩]
      = [⟨["[::1]:9999"],
          [("host", "localhost"), ("module", "node"), ("__metrics_path__", "/proxy"),
           ("__param_module", "node")]⟩] ∧
    (buildStaticConfigs "node" [⟨"::1", "localhost", "::1/128", "node"⟩]).map
        StaticConfig.Targets
      ≠ [["::1" ++ ":9999"]] := by
  decide

/-! ## Scan jobs -/

theorem dot_cutset (ch : Char) : (".".data.contains ch) = true ↔ ch = '.' := by
  have h : ".".data = ['.'] := rfl
  rw [h]
  simp

theorem TrimRight_data (s cutset : String) :
    (TrimRight s cutset).data
      = (s.data.reverse.dropWhile (fun ch => cutset.data.contains ch)).reverse := rfl

/-- What `TrimRight s "."` removes is a run of dots at the end of `s`, and what it leaves
    does not end in a dot. -/
theorem TrimRight_dot_spec (s : String) :
    (∃ n, s = TrimRight s "." ++ ⟨List.replicate n '.'⟩) ∧
    (TrimRight s ".").data.getLast? ≠ some '.' := by
  constructor
  · refine ⟨(s.data.reverse.takeWhile (fun ch => ".".data.contains ch)).length, ?_⟩
    apply String.ext
    rw [String.data_append, TrimRight_data]
    have hrep : List.replicate
        (s.data.reverse.takeWhile (fun ch => ".".data.contains ch)).length '.'
        = (s.data.reverse.takeWhile (fun ch => ".".data.contains ch)).reverse := by
      symm
      rw [List.eq_replicate_iff]
      refine ⟨by simp, ?_⟩
      intro b hb
      have hb' := List.mem_takeWhile_imp (List.mem_reverse.mp hb)
      exact (dot_cutset b).mp hb'
    show s.data = _ ++ List.replicate _ '.'
    rw [hrep, ← List.reverse_append, List.takeWhile_append_dropWhile, List.reverse_reverse]
  · rw [TrimRight_data, List.getLast?_reverse]
    intro h
    have := List.head?_dropWhile_not (fun ch => ".".data.contains ch) s.data.reverse
    rw [h] at this
    simp only at this
    have h2 := (dot_cutset '.').mpr rfl
    rw [h2] at this
    exact Bool.noConfusion this

/-- The result of `TrimRight s "."` is empty exactly when `s` consists of dots only. -/
theorem TrimRight_dot_eq_empty_iff (s : String) :
    TrimRight s "." = "" ↔ ∀ ch ∈ s.data, ch = '.' := by
  constructor
  · intro h
    have hd : (TrimRight s ".").data = [] := by rw [h]
    rw [TrimRight_data, List.reverse_eq_nil_iff, List.dropWhile_eq_nil_iff] at hd
    intro ch hch
    exact (dot_cutset ch).mp (hd ch (List.mem_reverse.mpr hch))
  · intro h
    apply String.ext
    rw [TrimRight_data]
    show _ = []
    rw [List.reverse_eq_nil_iff, List.dropWhile_eq_nil_iff]
    intro ch hch
    exact (dot_cutset ch).mpr (h ch (List.mem_reverse.mp hch))

/-- C8 (per-host probe result): the job emits no target when the probe fails, when the
    lookup fails or when the lookup returns no name; otherwise it emits, for the module
    names of the probe in their order, one target each, with the address, the subnet, that
    module name, and as hostname the first returned name without its trailing dots, which
    is that name cut before a final run of dots and does not end in a dot.  A probe
    returning node_exporter and cadvisor with the lookup result "host1." gives two targets
    with hostname "host1". -/
theorem createScanJob_result (ipStr subnet : String) (err : String) (modules : List String)
    (lookup : Except String (List String)) (addr : String) (addrs : List String) :
    createScanJob ipStr subnet (Except.error err) lookup = [] ∧
    createScanJob ipStr subnet (Except.ok modules) (Except.error err) = [] ∧
    createScanJob ipStr subnet (Except.ok modules) (Except.ok []) = [] ∧
    createScanJob ipStr subnet (Except.ok modules) (Except.ok (addr :: addrs))
      = modules.map (fun module =>
          ({ IP := ipStr, Hostname := TrimRight addr ".", Subnet := subnet,
             Module := module } : Target)) ∧
    (∃ n, addr = TrimRight addr "." ++ ⟨List.replicate n '.'⟩) ∧
    (TrimRight addr ".").data.getLast? ≠ some '.' ∧
    createScanJob "10.0.0.1" "10.0.0.0/30" (Except.ok ["node_exporter", "cadvisor"])
        (Except.ok ["host1."])
      = [⟨"10.0.0.1", "host1", "10.0.0.0/30", "node_exporter"⟩,
         ⟨"10.0.0.1", "host1", "10.0.0.0/30", "cadvisor"⟩] :=
  ⟨rfl, rfl, rfl, rfl, (TrimRight_dot_spec addr).1, (TrimRight_dot_spec addr).2, by decide⟩

/-- C9, as amended (target fields): for a successful probe (any decoded JSON object) and a
    successful lookup with at least one name, every target the job emits has the address
    as IP, the subnet as Subnet, the first name without its trailing dots as Hostname and a
    member name of the JSON object as Module; the Hostname is non-empty exactly when the
    first name has a character other than a dot; and no field is empty when the address
    and the subnet are non-empty, no member name is empty and the first name has a
    character other than a dot. -/
theorem createScanJob_fields (ord : MapOrder) (ipStr subnet : String)
    (modules : GoMap String) (addr : String) (addrs : List String) :
    (∀ t ∈ createScanJob ipStr subnet (checkExporterExporter ord (Except.ok modules))
        (Except.ok (addr :: addrs)),
      t.IP = ipStr ∧ t.Subnet = subnet ∧ t.Hostname = TrimRight addr "." ∧
        t.Module ∈ modules.keys) ∧
    (TrimRight addr "." ≠ "" ↔ ∃ ch ∈ addr.data, ch ≠ '.') ∧
    (ipStr ≠ "" → subnet ≠ "" → (∀ name ∈ modules.keys, name ≠ "") →
      (∃ ch ∈ addr.data, ch ≠ '.') →
      ∀ t ∈ createScanJob ipStr subnet (checkExporterExporter ord (Except.ok modules))
        (Except.ok (addr :: addrs)),
      t.IP ≠ "" ∧ t.Hostname ≠ "" ∧ t.Subnet ≠ "" ∧ t.Module ≠ "") := by
  have hfields : ∀ t ∈ createScanJob ipStr subnet (checkExporterExporter ord (Except.ok modules))
        (Except.ok (addr :: addrs)),
      t.IP = ipStr ∧ t.Subnet = subnet ∧ t.Hostname = TrimRight addr "." ∧
        t.Module ∈ modules.keys := by
    intro t ht
    simp only [createScanJob, checkExporterExporter, List.mem_map] at ht
    obtain ⟨m, ⟨e, he, hem⟩, hmt⟩ := ht
    subst hmt
    refine ⟨rfl, rfl, rfl, ?_⟩
    exact List.mem_map.mpr ⟨e, (ord.range_perm modules).mem_iff.mp he, hem⟩
  have hhost : TrimRight addr "." ≠ "" ↔ ∃ ch ∈ addr.data, ch ≠ '.' := by
    rw [Ne, TrimRight_dot_eq_empty_iff]
    push_neg
    rfl
  refine ⟨hfields, hhost, ?_⟩
  intro hip hsub hnames hch t ht
  obtain ⟨h1, h2, h3, h4⟩ := hfields t ht
  refine ⟨h1 ▸ hip, ?_, h2 ▸ hsub, hnames _ h4⟩
  rw [h3]
  exact hhost.mpr hch

/-- C9 as amended, at the probe result {"node_exporter": {}} and the lookup result
    "host1.". -/
theorem createScanJob_fields_witness :
    ("10.0.0.1" ≠ "" ∧ "10.0.0.0/30" ≠ "" ∧
      (∀ name ∈ GoMap.keys [("node_exporter", "{}")], name ≠ "") ∧
      (∃ ch ∈ "host1.".data, ch ≠ '.')) ∧
    ∀ t ∈ createScanJob "10.0.0.1" "10.0.0.0/30"
        (checkExporterExporter MapOrder.insertion (Except.ok [("node_exporter", "{}")]))
        (Except.ok ["host1."]),
      t.IP ≠ "" ∧ t.Hostname ≠ "" ∧ t.Subnet ≠ "" ∧ t.Module ≠ "" :=
  ⟨by decide,
    (createScanJob_fields MapOrder.insertion "10.0.0.1" "10.0.0.0/30"
      [("node_exporter", "{}")] "host1." []).2.2 (by decide) (by decide) (by decide)
      (by decide)⟩

/-- C9 as stated fails: a JSON object with an empty member name and a lookup that returns
    the name "." give a target with an empty Module and an empty Hostname. -/
theorem createScanJob_empty_fields :
    createScanJob "10.0.0.1" "10.0.0.0/30"
        (checkExporterExporter MapOrder.insertion (Except.ok [("", "{}")]))
        (Except.ok ["."])
      = [⟨"10.0.0.1", "", "10.0.0.0/30", ""⟩] := by
  decide

/-! ## Updating the store -/

/-- C5 at its failing input: with no stored object for the module and a scanned list that
    holds the address 10.0.0.1 twice, `updateScrapeConfig` sends one Get and one Create,
    and the created object holds two entries with the address 10.0.0.1:9999. -/
theorem updateScrapeConfig_create_duplicate_address :
    (updateScrapeConfig ⟨"monitoring", none, []⟩ Server.api MapOrder.insertion
        ⟨[], [], []⟩ "node"
        [⟨"10.0.0.1", "a", "10.0.0.1/32", "node"⟩,
         ⟨"10.0.0.1", "a", "10.0.0.1/32", "node"⟩]).2.calls
      = [Call.Get "exporter-discovery-node",
         Call.Create
          ⟨"exporter-discovery-node", [], none, none,
           [⟨["10.0.0.1:9999"],
             [("host", "a"), ("module", "node"), ("__metrics_path__", "/proxy"),
              ("__param_module", "node")]⟩,
            ⟨["10.0.0.1:9999"],
             [("host", "a"), ("module", "node"), ("__metrics_path__", "/proxy"),
              ("__param_module", "node")]⟩]⟩] ∧
    ¬ ((buildStaticConfigs "node"
        [⟨"10.0.0.1", "a", "10.0.0.1/32", "node"⟩,
         ⟨"10.0.0.1", "a", "10.0.0.1/32", "node"⟩]).map StaticConfig.key).Nodup := by
  decide

theorem applyModuleConfig_StaticConfigs (c : Client) (sc : ScrapeConfig) (moduleName : String) :
    (applyModuleConfig c sc moduleName).StaticConfigs = sc.StaticConfigs := by
  unfold applyModuleConfig
  cases c.podRef <;> cases getModuleConfig c moduleName <;> simp only <;>
    (repeat' split) <;> rfl

/-- On the path that finds a stored object, the in-memory store receives an Update whose
    entries have pairwise distinct first targets. -/
theorem updateScrapeConfig_update_keys_nodup (c : Client) (ord : MapOrder) (s : Server)
    (moduleName : String) (targets : List Target) (sc : ScrapeConfig)
    (hav : "exporter-discovery-" ++ moduleName ∉ s.unavailable)
    (hget : s.objects.get? ("exporter-discovery-" ++ moduleName) = some sc) :
    ∃ sc', (updateScrapeConfig c Server.api ord s moduleName targets).2.calls
        = s.calls ++ [Call.Get ("exporter-discovery-" ++ moduleName), Call.Update sc'] ∧
      sc'.StaticConfigs
        = mergeStaticConfigs ord sc.StaticConfigs (buildStaticConfigs moduleName targets) ∧
      (sc'.StaticConfigs.map StaticConfig.key).Nodup := by
  refine ⟨applyModuleConfig c
    { sc with StaticConfigs :=
        mergeStaticConfigs ord sc.StaticConfigs (buildStaticConfigs moduleName targets) }
    moduleName, ?_, ?_, ?_⟩
  · simp only [updateScrapeConfig, Server.api, hav, if_false, hget]
    repeat' split
    all_goals simp
  · rw [applyModuleConfig_StaticConfigs]
  · rw [applyModuleConfig_StaticConfigs]
    exact mergeStaticConfigs_keys_nodup ord _ _

/-- A Get that fails with an error other than not-found ends `updateScrapeConfig` with that
    error; no Create or Update is sent. -/
theorem updateScrapeConfig_get_failure {σ : Type} (c : Client) (api : ScrapeConfigInterface σ)
    (ord : MapOrder) (s s₁ : σ) (moduleName : String) (targets : List Target) (err : APIError)
    (hget : api.Get s ("exporter-discovery-" ++ moduleName) = (Except.error err, s₁))
    (hnf : IsNotFound err = false) :
    updateScrapeConfig c api ord s moduleName targets = (some err, s₁) := by
  simp [updateScrapeConfig, hget, hnf]

theorem updateVisited_append_failure {σ : Type} (c : Client) (api : ScrapeConfigInterface σ)
    (ord : MapOrder) (s s₁ s₂ : σ) (pre post : List (String × List Target))
    (moduleName : String) (moduleTargets : List Target) (err : APIError)
    (hpre : updateVisited c api ord s pre = (none, s₁))
    (hfail : updateScrapeConfig c api ord s₁ moduleName moduleTargets = (some err, s₂)) :
    updateVisited c api ord s (pre ++ (moduleName, moduleTargets) :: post)
      = (some { msg := "failed to update scrapeconfig for module " ++ moduleName ++ ": "
                  ++ err.Error,
                err := err }, s₂) := by
  induction pre generalizing s with
  | nil =>
    simp only [updateVisited] at hpre
    cases hpre
    simp [updateVisited, hfail]
  | cons e rest ih =>
    obtain ⟨m, ts⟩ := e
    simp only [updateVisited, List.cons_append] at hpre ⊢
    cases hstep : updateScrapeConfig c api ord s m ts with
    | mk r s' =>
      rw [hstep] at hpre
      cases r with
      | some e' => simp at hpre
      | none =>
        simp only at hpre ⊢
        exact ih s' hpre

/-- C7, as amended (the first failure stops the pass): when `range targets` visits the
    modules of `pre`, then module `moduleName`, then the modules of `post`, the
    reconciliation of every module of `pre` succeeds and that of `moduleName` fails with
    `err`, then `UpdateScrapeConfigs` returns the error "failed to update scrapeconfig for
    module <moduleName>: <err>" wrapping `err` and leaves the store as the failed attempt
    left it; the modules of `post` are not attempted. -/
theorem UpdateScrapeConfigs_stops_at_first_failure {σ : Type} (c : Client)
    (api : ScrapeConfigInterface σ) (ord : MapOrder) (s s₁ s₂ : σ)
    (targets : GoMap (List Target)) (pre post : List (String × List Target))
    (moduleName : String) (moduleTargets : List Target) (err : APIError)
    (hvisit : ord.range targets = pre ++ (moduleName, moduleTargets) :: post)
    (hpre : updateVisited c api ord s pre = (none, s₁))
    (hfail : updateScrapeConfig c api ord s₁ moduleName moduleTargets = (some err, s₂)) :
    UpdateScrapeConfigs c api ord s targets
      = (some { msg := "failed to update scrapeconfig for module " ++ moduleName ++ ": "
                  ++ err.Error,
                err := err }, s₂) := by
  unfold UpdateScrapeConfigs
  rw [hvisit]
  exact updateVisited_append_failure c api ord s s₁ s₂ pre post moduleName moduleTargets err
    hpre hfail

/-- C7 as amended, at three modules a, b, c visited in this order, with the store
    failing for b: a is created, b fails on its Get, c is not attempted. -/
theorem UpdateScrapeConfigs_stops_at_first_failure_witness :
    UpdateScrapeConfigs ⟨"monitoring", none, []⟩ Server.api MapOrder.insertion
        ⟨[], ["exporter-discovery-b"], []⟩
        [("a", [⟨"10.0.0.1", "h1", "10.0.0.0/30", "a"⟩]),
         ("b", [⟨"10.0.0.2", "h2", "10.0.0.0/30", "b"⟩]),
         ("c", [⟨"10.0.0.3", "h3", "10.0.0.0/30", "c"⟩])]
      = (some ⟨"failed to update scrapeconfig for module b: connection refused",
              APIError.Other "connection refused"⟩,
         ⟨[("exporter-discovery-a",
             ⟨"exporter-discovery-a", [], none, none,
              [⟨["10.0.0.1:9999"],
                [("host", "h1"), ("module", "a"), ("__metrics_path__", "/proxy"),
                 ("__param_module", "a")]⟩]⟩)],
          ["exporter-discovery-b"],
          [Call.Get "exporter-discovery-a",
           Call.Create
            ⟨"exporter-discovery-a", [], none, none,
             [⟨["10.0.0.1:9999"],
               [("host", "h1"), ("module", "a"), ("__metrics_path__", "/proxy"),
                ("__param_module", "a")]⟩]⟩,
           Call.Get "exporter-discovery-b"]⟩) :=
  UpdateScrapeConfigs_stops_at_first_failure ⟨"monitoring", none, []⟩ Server.api
    MapOrder.insertion ⟨[], ["exporter-discovery-b"], []⟩
    ⟨[("exporter-discovery-a",
        ⟨"exporter-discovery-a", [], none, none,
         [⟨["10.0.0.1:9999"],
           [("host", "h1"), ("module", "a"), ("__metrics_path__", "/proxy"),
            ("__param_module", "a")]⟩]⟩)],
     ["exporter-discovery-b"],
     [Call.Get "exporter-discovery-a",
      Call.Create
       ⟨"exporter-discovery-a", [], none, none,
        [⟨["10.0.0.1:9999"],
          [("host", "h1"), ("module", "a"), ("__metrics_path__", "/proxy"),
           ("__param_module", "a")]⟩]⟩]⟩
    ⟨[("exporter-discovery-a",
        ⟨"exporter-discovery-a", [], none, none,
         [⟨["10.0.0.1:9999"],
           [("host", "h1"), ("module", "a"), ("__metrics_path__", "/proxy"),
            ("__param_module", "a")]⟩]⟩)],
     ["exporter-discovery-b"],
     [Call.Get "exporter-discovery-a",
      Call.Create
       ⟨"exporter-discovery-a", [], none, none,
        [⟨["10.0.0.1:9999"],
          [("host", "h1"), ("module", "a"), ("__metrics_path__", "/proxy"),
           ("__param_module", "a")]⟩]⟩,
      Call.Get "exporter-discovery-b"]⟩
    [("a", [⟨"10.0.0.1", "h1", "10.0.0.0/30", "a"⟩]),
     ("b", [⟨"10.0.0.2", "h2", "10.0.0.0/30", "b"⟩]),
     ("c", [⟨"10.0.0.3", "h3", "10.0.0.0/30", "c"⟩])]
    [("a", [⟨"10.0.0.1", "h1", "10.0.0.0/30", "a"⟩])]
    [("c", [⟨"10.0.0.3", "h3", "10.0.0.0/30", "c"⟩])]
    "b" [⟨"10.0.0.2", "h2", "10.0.0.0/30", "b"⟩] (APIError.Other "connection refused")
    (by decide) (by decide) (by decide)

/-- C7 as stated fails: with two modules a and b visited in this order and a store that
    fails for a only, `UpdateScrapeConfigs` returns after the failed Get for a; it sends no
    request for b and b gets no object, although the reconciliation of b alone succeeds. -/
theorem UpdateScrapeConfigs_skips_other_module :
    (UpdateScrapeConfigs ⟨"monitoring", none, []⟩ Server.api MapOrder.insertion
        ⟨[], ["exporter-discovery-a"], []⟩
        [("a", [⟨"10.0.0.1", "h1", "10.0.0.0/30", "a"⟩]),
         ("b", [⟨"10.0.0.2", "h2", "10.0.0.0/30", "b"⟩])])
      = (some ⟨"failed to update scrapeconfig for module a: connection refused",
              APIError.Other "connection refused"⟩,
         ⟨[], ["exporter-discovery-a"], [Call.Get "exporter-discovery-a"]⟩) ∧
    (updateScrapeConfig ⟨"monitoring", none, []⟩ Server.api MapOrder.insertion
        ⟨[], ["exporter-discovery-a"], []⟩ "b"
        [⟨"10.0.0.2", "h2", "10.0.0.0/30", "b"⟩]).1 = none := by
  decide

/-! ## The address loop -/

theorem incFromLast_length (l : List Nat) : (incFromLast l).length = l.length := by
  induction l with
  | nil => rfl
  | cons b rest ih =>
    simp only [incFromLast]
    split <;> simp [ih]

theorem inc_length (ip : IP) : (inc ip).length = ip.length := by
  simp [inc, incFromLast_length]

theorem containsBytes_zero_mask (ip : List Nat) (h : ip.length = 4) :
    containsBytes [0, 0, 0, 0] [0, 0, 0, 0] ip = true := by
  match ip, h with
  | [x₀, x₁, x₂, x₃], _ => simp [containsBytes]

theorem addressLoop_slash0 (fuel i : Nat) (ip : IP) (h : ip.length = 4) :
    addressLoop ⟨[0, 0, 0, 0], [0, 0, 0, 0]⟩ (fun _ => false) fuel i ip = none := by
  induction fuel generalizing i ip with
  | zero => rfl
  | succ n ih =>
    have hc : (⟨[0, 0, 0, 0], [0, 0, 0, 0]⟩ : IPNet).Contains ip = true := by
      simp [IPNet.Contains, h, containsBytes_zero_mask ip h]
    simp only [addressLoop, hc, if_true]
    rw [ih (i + 1) (inc ip) (by rw [inc_length, h])]
    rfl

set_option maxRecDepth 100000 in
theorem land_mask_byte (k : Nat) (hk : k ≤ 8) :
    ∀ b, b < 256 → b &&& (0xff - (0xff >>> k)) = b / 2 ^ (8 - k) * 2 ^ (8 - k) := by
  interval_cases k <;> decide

theorem inc_four (x₀ x₁ x₂ x₃ : Nat) (h₀ : x₀ < 256) (h₁ : x₁ < 256) (h₂ : x₂ < 256)
    (h₃ : x₃ < 256) :
    ∃ y₀ y₁ y₂ y₃, inc [x₀, x₁, x₂, x₃] = [y₀, y₁, y₂, y₃] ∧
      y₀ < 256 ∧ y₁ < 256 ∧ y₂ < 256 ∧ y₃ < 256 ∧
      ((y₀ * 256 + y₁) * 256 + y₂) * 256 + y₃
        = (((x₀ * 256 + x₁) * 256 + x₂) * 256 + x₃ + 1) % 4294967296 := by
  simp only [inc, List.reverse_cons, List.reverse_nil, List.nil_append, List.cons_append,
    incFromLast]
  by_cases c₃ : (x₃ + 1) % 256 > 0
  · simp only [c₃, if_true]
    refine ⟨x₀, x₁, x₂, (x₃ + 1) % 256, by simp, h₀, h₁, h₂, by omega, by omega⟩
  · by_cases c₂ : (x₂ + 1) % 256 > 0
    · simp only [c₃, c₂, if_true, if_false]
      refine ⟨x₀, x₁, (x₂ + 1) % 256, (x₃ + 1) % 256, by simp, h₀, h₁, by omega, by omega,
        by omega⟩
    · by_cases c₁ : (x₁ + 1) % 256 > 0
      · simp only [c₃, c₂, c₁, if_true, if_false]
        refine ⟨x₀, (x₁ + 1) % 256, (x₂ + 1) % 256, (x₃ + 1) % 256, by simp, h₀, by omega,
          by omega, by omega, by omega⟩
      · by_cases c₀ : (x₀ + 1) % 256 > 0
        · simp only [c₃, c₂, c₁, c₀, if_true, if_false]
          refine ⟨(x₀ + 1) % 256, (x₁ + 1) % 256, (x₂ + 1) % 256, (x₃ + 1) % 256, by simp,
            by omega, by omega, by omega, by omega, by omega⟩
        · simp only [c₃, c₂, c₁, c₀, if_false]
          refine ⟨(x₀ + 1) % 256, (x₁ + 1) % 256, (x₂ + 1) % 256, (x₃ + 1) % 256, by simp,
            by omega, by omega, by omega, by omega, by omega⟩
theorem CIDRMaskBytes_four (p : Nat) :
    CIDRMaskBytes 4 p
      = [0xff - (0xff >>> min p 8), 0xff - (0xff >>> min (p - 8) 8),
         0xff - (0xff >>> min (p - 16) 8), 0xff - (0xff >>> min (p - 24) 8)] := by
  have step : ∀ l n, CIDRMaskBytes (l + 1) n
      = (0xff - (0xff >>> min n 8)) :: CIDRMaskBytes l (n - 8) := by
    intro l n
    by_cases h : n ≥ 8
    · have e : min n 8 = 8 := by omega
      simp only [CIDRMaskBytes, h, if_true, e]
      rfl
    · have e : min n 8 = n := by omega
      have e' : n - 8 = 0 := by omega
      simp only [CIDRMaskBytes, h, if_false, e, e']
  rw [step, step, step, step]
  have e₂ : p - 8 - 8 = p - 16 := by omega
  have e₃ : p - 16 - 8 = p - 24 := by omega
  rw [e₂, e₃]
  rfl

theorem contains_four_bytes (a₀ a₁ a₂ a₃ m₀ m₁ m₂ m₃ x₀ x₁ x₂ x₃ : Nat) :
    (⟨List.zipWith (fun b m => b &&& m) [a₀, a₁, a₂, a₃] [m₀, m₁, m₂, m₃],
      [m₀, m₁, m₂, m₃]⟩ : IPNet).Contains [x₀, x₁, x₂, x₃] = true
    ↔ (a₀ &&& m₀ = x₀ &&& m₀ ∧ a₁ &&& m₁ = x₁ &&& m₁ ∧ a₂ &&& m₂ = x₂ &&& m₂
        ∧ a₃ &&& m₃ = x₃ &&& m₃) := by
  simp only [IPNet.Contains, List.zipWith_cons_cons, List.zipWith_nil_right, List.length_cons,
    List.length_nil, containsBytes, ne_eq, not_true_eq_false, if_false, Nat.and_assoc,
    Nat.and_self]
  by_cases h₀ : a₀ &&& m₀ = x₀ &&& m₀ <;> by_cases h₁ : a₁ &&& m₁ = x₁ &&& m₁ <;>
    by_cases h₂ : a₂ &&& m₂ = x₂ &&& m₂ <;> by_cases h₃ : a₃ &&& m₃ = x₃ &&& m₃ <;>
    simp [h₀, h₁, h₂, h₃]

set_option maxHeartbeats 4000000 in
theorem prefix_eq_iff (p : Nat) (hp : p ≤ 32) (a₀ a₁ a₂ a₃ x₀ x₁ x₂ x₃ : Nat)
    (ha₀ : a₀ < 256) (ha₁ : a₁ < 256) (ha₂ : a₂ < 256) (ha₃ : a₃ < 256)
    (hx₀ : x₀ < 256) (hx₁ : x₁ < 256) (hx₂ : x₂ < 256) (hx₃ : x₃ < 256) :
    (a₀ / 2 ^ (8 - min p 8) * 2 ^ (8 - min p 8) = x₀ / 2 ^ (8 - min p 8) * 2 ^ (8 - min p 8) ∧
     a₁ / 2 ^ (8 - min (p - 8) 8) * 2 ^ (8 - min (p - 8) 8)
        = x₁ / 2 ^ (8 - min (p - 8) 8) * 2 ^ (8 - min (p - 8) 8) ∧
     a₂ / 2 ^ (8 - min (p - 16) 8) * 2 ^ (8 - min (p - 16) 8)
        = x₂ / 2 ^ (8 - min (p - 16) 8) * 2 ^ (8 - min (p - 16) 8) ∧
     a₃ / 2 ^ (8 - min (p - 24) 8) * 2 ^ (8 - min (p - 24) 8)
        = x₃ / 2 ^ (8 - min (p - 24) 8) * 2 ^ (8 - min (p - 24) 8))
    ↔ (((x₀ * 256 + x₁) * 256 + x₂) * 256 + x₃) / 2 ^ (32 - p)
        = (((a₀ * 256 + a₁) * 256 + a₂) * 256 + a₃) / 2 ^ (32 - p) := by
  interval_cases p <;> norm_num <;> omega

theorem contains_four_iff (p : Nat) (hp : p ≤ 32) (a₀ a₁ a₂ a₃ x₀ x₁ x₂ x₃ : Nat)
    (ha₀ : a₀ < 256) (ha₁ : a₁ < 256) (ha₂ : a₂ < 256) (ha₃ : a₃ < 256)
    (hx₀ : x₀ < 256) (hx₁ : x₁ < 256) (hx₂ : x₂ < 256) (hx₃ : x₃ < 256) :
    (⟨List.zipWith (fun b m => b &&& m) [a₀, a₁, a₂, a₃] (CIDRMaskBytes 4 p),
      CIDRMaskBytes 4 p⟩ : IPNet).Contains [x₀, x₁, x₂, x₃] = true
    ↔ (((x₀ * 256 + x₁) * 256 + x₂) * 256 + x₃) / 2 ^ (32 - p)
        = (((a₀ * 256 + a₁) * 256 + a₂) * 256 + a₃) / 2 ^ (32 - p) := by
  rw [CIDRMaskBytes_four, contains_four_bytes,
    land_mask_byte _ (Nat.min_le_right _ _) a₀ ha₀, land_mask_byte _ (Nat.min_le_right _ _) a₁ ha₁,
    land_mask_byte _ (Nat.min_le_right _ _) a₂ ha₂, land_mask_byte _ (Nat.min_le_right _ _) a₃ ha₃,
    land_mask_byte _ (Nat.min_le_right _ _) x₀ hx₀, land_mask_byte _ (Nat.min_le_right _ _) x₁ hx₁,
    land_mask_byte _ (Nat.min_le_right _ _) x₂ hx₂, land_mask_byte _ (Nat.min_le_right _ _) x₃ hx₃]
  exact prefix_eq_iff p hp a₀ a₁ a₂ a₃ x₀ x₁ x₂ x₃ ha₀ ha₁ ha₂ ha₃ hx₀ hx₁ hx₂ hx₃
theorem IP.toNat_four (x₀ x₁ x₂ x₃ : Nat) :
    IP.toNat [x₀, x₁, x₂, x₃] = ((x₀ * 256 + x₁) * 256 + x₂) * 256 + x₃ := by
  simp [IP.toNat]

theorem four_bytes (ip : IP) (hlen : ip.length = 4) (hb : ∀ b ∈ ip, b < 256) :
    ∃ x₀ x₁ x₂ x₃, ip = [x₀, x₁, x₂, x₃] ∧ x₀ < 256 ∧ x₁ < 256 ∧ x₂ < 256 ∧ x₃ < 256 := by
  match ip, hlen, hb with
  | [x₀, x₁, x₂, x₃], _, hb =>
    exact ⟨x₀, x₁, x₂, x₃, rfl, hb x₀ (by simp), hb x₁ (by simp), hb x₂ (by simp),
      hb x₃ (by simp)⟩

set_option maxHeartbeats 4000000 in
theorem past_block_not_contained (p : Nat) (hp₁ : 1 ≤ p) (hp : p ≤ 32) (A : Nat) :
    ((A / 2 ^ (32 - p) * 2 ^ (32 - p) + 2 ^ (32 - p)) % 4294967296) / 2 ^ (32 - p)
      ≠ A / 2 ^ (32 - p) := by
  interval_cases p <;> norm_num <;> omega

set_option maxHeartbeats 4000000 in
theorem in_block (p : Nat) (hp : p ≤ 32) (A j : Nat) (hA : A < 4294967296)
    (hj : j < 2 ^ (32 - p)) :
    (A / 2 ^ (32 - p) * 2 ^ (32 - p) + j) % 4294967296 = A / 2 ^ (32 - p) * 2 ^ (32 - p) + j ∧
    (A / 2 ^ (32 - p) * 2 ^ (32 - p) + j) / 2 ^ (32 - p) = A / 2 ^ (32 - p) := by
  interval_cases p <;> norm_num at hj ⊢ <;> omega

set_option maxHeartbeats 4000000 in
theorem masked_value (p : Nat) (hp : p ≤ 32) (a₀ a₁ a₂ a₃ : Nat)
    (ha₁ : a₁ < 256) (ha₂ : a₂ < 256) (ha₃ : a₃ < 256) :
    ((a₀ / 2 ^ (8 - min p 8) * 2 ^ (8 - min p 8) * 256
        + a₁ / 2 ^ (8 - min (p - 8) 8) * 2 ^ (8 - min (p - 8) 8)) * 256
        + a₂ / 2 ^ (8 - min (p - 16) 8) * 2 ^ (8 - min (p - 16) 8)) * 256
        + a₃ / 2 ^ (8 - min (p - 24) 8) * 2 ^ (8 - min (p - 24) 8)
      = (((a₀ * 256 + a₁) * 256 + a₂) * 256 + a₃) / 2 ^ (32 - p) * 2 ^ (32 - p) := by
  interval_cases p <;> norm_num <;> omega
/-- The address loop from the `j`-th address of a block on, for a prefix length of at
    least 1: it submits the remaining `n` addresses of the block in ascending order and
    ends. -/
theorem addressLoop_block (p : Nat) (hp₁ : 1 ≤ p) (hp : p ≤ 32) (a₀ a₁ a₂ a₃ : Nat)
    (ha₀ : a₀ < 256) (ha₁ : a₁ < 256) (ha₂ : a₂ < 256) (ha₃ : a₃ < 256)
    (n : Nat) : ∀ (j fuel i : Nat) (ip : IP), j + n = 2 ^ (32 - p) → n < fuel →
      ip.length = 4 → (∀ b ∈ ip, b < 256) →
      IP.toNat ip
        = (IP.toNat [a₀, a₁, a₂, a₃] / 2 ^ (32 - p) * 2 ^ (32 - p) + j) % 4294967296 →
      ∃ l, addressLoop
          ⟨List.zipWith (fun b m => b &&& m) [a₀, a₁, a₂, a₃] (CIDRMaskBytes 4 p),
            CIDRMaskBytes 4 p⟩ (fun _ => false) fuel i ip = some l ∧
        l.map IP.toNat
          = List.range' (IP.toNat [a₀, a₁, a₂, a₃] / 2 ^ (32 - p) * 2 ^ (32 - p) + j) n ∧
        ∀ x ∈ l, x.length = 4 ∧ ∀ b ∈ x, b < 256 := by
  have hA : IP.toNat [a₀, a₁, a₂, a₃] < 4294967296 := by
    rw [IP.toNat_four]
    omega
  induction n with
  | zero =>
    intro j fuel i ip hj hfuel hlen hb hval
    obtain ⟨x₀, x₁, x₂, x₃, hip, hx₀, hx₁, hx₂, hx₃⟩ := four_bytes ip hlen hb
    subst hip
    obtain ⟨f, rfl⟩ : ∃ f, fuel = f + 1 := ⟨fuel - 1, by omega⟩
    have hjN : j = 2 ^ (32 - p) := by omega
    have hnot : (⟨List.zipWith (fun b m => b &&& m) [a₀, a₁, a₂, a₃] (CIDRMaskBytes 4 p),
        CIDRMaskBytes 4 p⟩ : IPNet).Contains [x₀, x₁, x₂, x₃] = false := by
      rw [Bool.eq_false_iff, Ne,
        contains_four_iff p hp a₀ a₁ a₂ a₃ x₀ x₁ x₂ x₃ ha₀ ha₁ ha₂ ha₃ hx₀ hx₁ hx₂ hx₃,
        ← IP.toNat_four, ← IP.toNat_four, hval, hjN]
      exact past_block_not_contained p hp₁ hp _
    refine ⟨[], ?_, rfl, by simp⟩
    simp [addressLoop, hnot]
  | succ n ih =>
    intro j fuel i ip hj hfuel hlen hb hval
    obtain ⟨x₀, x₁, x₂, x₃, hip, hx₀, hx₁, hx₂, hx₃⟩ := four_bytes ip hlen hb
    subst hip
    obtain ⟨f, rfl⟩ : ∃ f, fuel = f + 1 := ⟨fuel - 1, by omega⟩
    have hjN : j < 2 ^ (32 - p) := by omega
    obtain ⟨hmod, hdiv⟩ := in_block p hp _ j hA hjN
    rw [hmod] at hval
    have hin : (⟨List.zipWith (fun b m => b &&& m) [a₀, a₁, a₂, a₃] (CIDRMaskBytes 4 p),
        CIDRMaskBytes 4 p⟩ : IPNet).Contains [x₀, x₁, x₂, x₃] = true := by
      rw [contains_four_iff p hp a₀ a₁ a₂ a₃ x₀ x₁ x₂ x₃ ha₀ ha₁ ha₂ ha₃ hx₀ hx₁ hx₂ hx₃,
        ← IP.toNat_four, ← IP.toNat_four, hval]
      exact hdiv
    obtain ⟨y₀, y₁, y₂, y₃, hinc, hy₀, hy₁, hy₂, hy₃, hyval⟩ :=
      inc_four x₀ x₁ x₂ x₃ hx₀ hx₁ hx₂ hx₃
    have hnext : IP.toNat (inc [x₀, x₁, x₂, x₃])
        = (IP.toNat [a₀, a₁, a₂, a₃] / 2 ^ (32 - p) * 2 ^ (32 - p) + (j + 1)) % 4294967296 := by
      rw [hinc, IP.toNat_four, hyval, ← IP.toNat_four, hval, Nat.add_assoc]
    have hlen' : (inc [x₀, x₁, x₂, x₃]).length = 4 := by rw [hinc]; rfl
    have hb' : ∀ b ∈ inc [x₀, x₁, x₂, x₃], b < 256 := by
      rw [hinc]
      intro b hbm
      simp only [List.mem_cons, List.mem_singleton, List.not_mem_nil, or_false] at hbm
      rcases hbm with h | h | h | h <;> omega
    obtain ⟨l, hl, hmap, hwf⟩ :=
      ih (j + 1) f (i + 1) (inc [x₀, x₁, x₂, x₃]) (by omega) (by omega) hlen' hb' hnext
    refine ⟨[x₀, x₁, x₂, x₃] :: l, ?_, ?_, ?_⟩
    · simp [addressLoop, hin, hl]
    · rw [List.map_cons, hmap, hval, List.range'_succ, Nat.add_assoc]
    · intro x hx
      rcases List.mem_cons.mp hx with h | h
      · subst h
        exact ⟨hlen, hb⟩
      · exact hwf x h

/-- For a network `a.b.c.d/p` with 1 ≤ p ≤ 32 and no cancellation, the address loop ends
    and submits exactly the 2^(32-p) addresses of the block, in ascending order from the
    network address to the broadcast address. -/
theorem submitJobs_addresses (p : Nat) (hp₁ : 1 ≤ p) (hp : p ≤ 32) (a₀ a₁ a₂ a₃ : Nat)
    (ha₀ : a₀ < 256) (ha₁ : a₁ < 256) (ha₂ : a₂ < 256) (ha₃ : a₃ < 256)
    (fuel : Nat) (hfuel : 2 ^ (32 - p) < fuel) :
    ∃ l, submitJobs (fun _ => false) fuel a₀ a₁ a₂ a₃ p = some l ∧
      l.map IP.toNat
        = List.range' (IP.toNat [a₀, a₁, a₂, a₃] / 2 ^ (32 - p) * 2 ^ (32 - p)) (2 ^ (32 - p)) ∧
      ∀ x ∈ l, x.length = 4 ∧ ∀ b ∈ x, b < 256 := by
  have hmask : CIDRMask p 32 = some (CIDRMaskBytes 4 p) := by
    have : ¬ p > 32 := by omega
    simp [CIDRMask, this]
  have hlenm : (CIDRMaskBytes 4 p).length = 4 := by rw [CIDRMaskBytes_four]; rfl
  have hMask : IP.Mask [a₀, a₁, a₂, a₃] (CIDRMaskBytes 4 p)
      = some (List.zipWith (fun b m => b &&& m) [a₀, a₁, a₂, a₃] (CIDRMaskBytes 4 p)) := by
    simp [IP.Mask, hlenm]
  have hparse : ParseCIDR a₀ a₁ a₂ a₃ p
      = some ([a₀, a₁, a₂, a₃],
          ⟨List.zipWith (fun b m => b &&& m) [a₀, a₁, a₂, a₃] (CIDRMaskBytes 4 p),
            CIDRMaskBytes 4 p⟩) := by
    simp only [ParseCIDR, ha₀, ha₁, ha₂, ha₃, and_self, if_true, hmask, hMask]
  simp only [submitJobs, hparse, hMask]
  have hstart : List.zipWith (fun b m => b &&& m) [a₀, a₁, a₂, a₃] (CIDRMaskBytes 4 p)
      = [a₀ / 2 ^ (8 - min p 8) * 2 ^ (8 - min p 8),
         a₁ / 2 ^ (8 - min (p - 8) 8) * 2 ^ (8 - min (p - 8) 8),
         a₂ / 2 ^ (8 - min (p - 16) 8) * 2 ^ (8 - min (p - 16) 8),
         a₃ / 2 ^ (8 - min (p - 24) 8) * 2 ^ (8 - min (p - 24) 8)] := by
    rw [CIDRMaskBytes_four]
    simp only [List.zipWith_cons_cons, List.zipWith_nil_right]
    rw [land_mask_byte _ (Nat.min_le_right _ _) a₀ ha₀,
      land_mask_byte _ (Nat.min_le_right _ _) a₁ ha₁,
      land_mask_byte _ (Nat.min_le_right _ _) a₂ ha₂,
      land_mask_byte _ (Nat.min_le_right _ _) a₃ ha₃]
  have hle : ∀ (a q : Nat), a < 256 → a / q * q < 256 := fun a q h =>
    Nat.lt_of_le_of_lt (Nat.div_mul_le_self a q) h
  have hA : IP.toNat [a₀, a₁, a₂, a₃] < 4294967296 := by
    rw [IP.toNat_four]
    omega
  have hloop := addressLoop_block p hp₁ hp a₀ a₁ a₂ a₃ ha₀ ha₁ ha₂ ha₃ (2 ^ (32 - p)) 0 fuel 0
    (List.zipWith (fun b m => b &&& m) [a₀, a₁, a₂, a₃] (CIDRMaskBytes 4 p))
    (by simp) hfuel (by rw [hstart]; rfl)
    (by
      rw [hstart]
      intro b hbm
      simp only [List.mem_cons, List.mem_singleton, List.not_mem_nil, or_false] at hbm
      rcases hbm with h | h | h | h <;> rw [h] <;> apply hle <;> assumption)
    (by
      rw [hstart, IP.toNat_four, masked_value p hp a₀ a₁ a₂ a₃ ha₁ ha₂ ha₃,
        ← IP.toNat_four, Nat.add_zero, Nat.mod_eq_of_lt]
      exact Nat.lt_of_le_of_lt (Nat.div_mul_le_self _ _) hA)
  simpa using hloop

/-- C6 at its failing input, the network 0.0.0.0/0 without cancellation: however many
    iterations the address loop is given, it has not ended, because the network contains
    every address and `inc` turns 255.255.255.255 into 0.0.0.0; and the network 10.0.0.0/30
    gives the four addresses of the example. -/
theorem submitJobs_slash0_never_ends :
    (∀ fuel, submitJobs (fun _ => false) fuel 0 0 0 0 0 = none) ∧
    inc [255, 255, 255, 255] = [0, 0, 0, 0] ∧
    (⟨[0, 0, 0, 0], [0, 0, 0, 0]⟩ : IPNet).Contains [0, 0, 0, 0] = true ∧
    (submitJobs (fun _ => false) 5 10 0 0 0 30).map (fun l => l.map IP.String)
      = some ["10.0.0.0", "10.0.0.1", "10.0.0.2", "10.0.0.3"] := by
  refine ⟨?_, by decide, by decide, by decide⟩
  intro fuel
  have hp : ParseCIDR 0 0 0 0 0 = some ([0, 0, 0, 0], ⟨[0, 0, 0, 0], [0, 0, 0, 0]⟩) := by decide
  have hm : IP.Mask [0, 0, 0, 0] [0, 0, 0, 0] = some [0, 0, 0, 0] := by decide
  simp only [submitJobs, hp, hm]
  exact addressLoop_slash0 fuel 0 [0, 0, 0, 0] rfl

end ExporterDiscovery
